import Mathlib

/-!
Verification development for the consensus-proxy repository: a shallow
embedding of the backend-state machine (cmd/beaconnode), the health prober,
the health-check scheduler and the routing/failover engine
(cmd/loadbalancer), with theorems settling the specified properties.
-/

namespace ConsensusProxy

/-! ## Backend descriptor (beaconnode, src/unnamed/part_000)

One record per configured node.  The Go struct holds atomic int64 counters,
a lock-guarded `Priority` and the immutable `OriginalPriority`; in this
sequential embedding they are plain `Int` fields. -/

structure BeaconNode where
  name : String
  url : String
  consecutiveErrors : Int
  consecutiveSuccesses : Int
  totalFailures : Int
  requests : Int
  priority : Int
  originalPriority : Int
deriving DecidableEq

/-- `NewBeaconNode` followed by the priority assignment in `loadbalancer.New`:
all counters start at zero, `Priority` and `OriginalPriority` are the
configured index. -/
def mkNode (name : String) (pri : Int) : BeaconNode :=
  { name := name, url := "", consecutiveErrors := 0, consecutiveSuccesses := 0,
    totalFailures := 0, requests := 0, priority := pri, originalPriority := pri }

/-- `IsHealthy`: `ConsecutiveErrors < errorThreshold`. -/
def BeaconNode.isHealthyNode (bn : BeaconNode) (errorThreshold : Int) : Bool :=
  bn.consecutiveErrors < errorThreshold

/-- `ResetErrors`: store 0 into `ConsecutiveErrors`. -/
def BeaconNode.resetErrors (bn : BeaconNode) : BeaconNode :=
  { bn with consecutiveErrors := 0 }

/-- `IncrementError`: bump `ConsecutiveErrors` and `TotalFailures`, reset
`ConsecutiveSuccesses` to 0. -/
def BeaconNode.incrementError (bn : BeaconNode) : BeaconNode :=
  { bn with consecutiveErrors := bn.consecutiveErrors + 1,
            totalFailures := bn.totalFailures + 1,
            consecutiveSuccesses := 0 }

/-- `IncrementSuccess`: bump `ConsecutiveSuccesses` (nothing else). -/
def BeaconNode.incrementSuccess (bn : BeaconNode) : BeaconNode :=
  { bn with consecutiveSuccesses := bn.consecutiveSuccesses + 1 }

/-- `ResetSuccesses`: store 0 into `ConsecutiveSuccesses`. -/
def BeaconNode.resetSuccesses (bn : BeaconNode) : BeaconNode :=
  { bn with consecutiveSuccesses := 0 }

/-- `IncrementRequests`. -/
def BeaconNode.incrementRequests (bn : BeaconNode) : BeaconNode :=
  { bn with requests := bn.requests + 1 }

/-- `SetPriority`. -/
def BeaconNode.setPriority (bn : BeaconNode) (p : Int) : BeaconNode :=
  { bn with priority := p }

/-- `IsPrimary`: current priority equals 0. -/
def BeaconNode.isPrimaryNode (bn : BeaconNode) : Bool :=
  bn.priority == 0

/-- `IsBackup`: current priority strictly greater than 0. -/
def BeaconNode.isBackupNode (bn : BeaconNode) : Bool :=
  0 < bn.priority

/-! ## Counter operations as a state machine (for the interleaving claim) -/

inductive CounterOp where
  | incrementErrorOp
  | incrementSuccessOp
  | resetErrorsOp
  | resetSuccessesOp
deriving DecidableEq

def applyCounterOp (bn : BeaconNode) : CounterOp → BeaconNode
  | .incrementErrorOp => bn.incrementError
  | .incrementSuccessOp => bn.incrementSuccess
  | .resetErrorsOp => bn.resetErrors
  | .resetSuccessesOp => bn.resetSuccesses

def runCounterOps (bn : BeaconNode) (ops : List CounterOp) : BeaconNode :=
  ops.foldl applyCounterOp bn

/-! ## Health prober (beaconnode, src/unnamed/part_001)

`HealthCheck` issues `GET {url}/eth/v1/node/syncing` and classifies the
outcome.  The I/O outcome is abstracted into `ProbeOutcome`; the
classification logic is translated branch by branch. -/

/-- The parsed body of `/eth/v1/node/syncing` (`SyncingResponse.Data`). -/
structure SyncingData where
  is_syncing : Bool
  sync_distance : String
deriving DecidableEq

/-- Outcome of reading the response body: the read itself can fail, and the
bytes may or may not unmarshal into `SyncingResponse`. -/
inductive BodyRead where
  | readFailed
  | readOk (parsed : Option SyncingData)
deriving DecidableEq

/-- Outcome of the probe round-trip. -/
inductive ProbeOutcome where
  | requestFailed
  | response (status : Nat) (body : BodyRead)
deriving DecidableEq

/-- The `Reason` strings carried by `HealthCheckError`, as tagged values. -/
inductive HealthReason where
  | request_failed
  | non_200_status (code : Nat)
  | read_body_failed
  | json_parse_failed
  | is_syncing (flag : Bool) (dist : String)
  | sync_distance_not_zero (dist : String)
  | not_synced
deriving DecidableEq

/-- `BeaconNode.HealthCheck`: returns whether the node is healthy and, on
failure, the classified reason.  Mirrors the Go control flow, including the
final `not_synced` fallback branch. -/
def healthCheck : ProbeOutcome → Bool × Option HealthReason
  | .requestFailed => (false, some .request_failed)
  | .response status body =>
    if status ≠ 200 then
      (false, some (.non_200_status status))
    else
      match body with
      | .readFailed => (false, some .read_body_failed)
      | .readOk none => (false, some .json_parse_failed)
      | .readOk (some d) =>
        let isHealthy := !d.is_syncing && d.sync_distance == "0"
        if isHealthy then
          (true, none)
        else
          let reason :=
            if d.is_syncing then HealthReason.is_syncing d.is_syncing d.sync_distance
            else if d.sync_distance ≠ "0" then HealthReason.sync_distance_not_zero d.sync_distance
            else HealthReason.not_synced
          (false, some reason)

/-- The healthiness characterisation of the spec, written from the spec text: a
backend is healthy iff the HTTP status is 200 AND the JSON parses AND
`is_syncing == false` AND `sync_distance == "0"`. -/
def probeHealthySpec : ProbeOutcome → Bool
  | .response 200 (.readOk (some d)) => !d.is_syncing && (d.sync_distance == "0")
  | _ => false

/-- True exactly on the six failure tags listed by the spec. -/
def reasonIsListed : HealthReason → Bool
  | .request_failed => true
  | .non_200_status _ => true
  | .read_body_failed => true
  | .json_parse_failed => true
  | .is_syncing _ _ => true
  | .sync_distance_not_zero _ => true
  | .not_synced => false

/-- C6: for every probe outcome, the prober classifies the backend healthy
iff the status is 200, the body reads and parses, `is_syncing` is false and
`sync_distance` is `"0"`; and every unhealthy outcome carries one of the six
listed failure tags (the `not_synced` fallback in the source is
unreachable). -/
theorem healthCheck_classification (o : ProbeOutcome) :
    (healthCheck o).1 = probeHealthySpec o ∧
    Option.all reasonIsListed (healthCheck o).2 = true := by
  rcases o with _ | ⟨status, body⟩
  · exact ⟨rfl, rfl⟩
  · by_cases hs : status = 200
    · subst hs
      rcases body with _ | parsed
      · exact ⟨rfl, rfl⟩
      · rcases parsed with _ | d
        · exact ⟨rfl, rfl⟩
        · rcases d with ⟨flag, dist⟩
          cases flag
          · by_cases hd : dist = "0"
            · subst hd
              exact ⟨rfl, rfl⟩
            · constructor
              · simp [healthCheck, probeHealthySpec, hd]
              · simp [healthCheck, hd, Option.all, reasonIsListed]
          · constructor
            · simp [healthCheck, probeHealthySpec]
            · simp [healthCheck, Option.all, reasonIsListed]
    · constructor
      · simp [healthCheck, probeHealthySpec, hs]
      · simp [healthCheck, hs, Option.all, reasonIsListed]

/-! ## C7: the counter interleaving claim -/

/-- C7 counterexample: from the initial state, the sequence
`IncrementError; IncrementSuccess` leaves `consecutive_errors == 1` and
`consecutive_successes == 1`, so both counters are strictly positive after a
single operation — `IncrementSuccess` does not reset the error counter. -/
theorem counters_both_positive_after_increment_success :
    0 < (runCounterOps (mkNode "p" 0)
          [CounterOp.incrementErrorOp, CounterOp.incrementSuccessOp]).consecutiveErrors ∧
    0 < (runCounterOps (mkNode "p" 0)
          [CounterOp.incrementErrorOp, CounterOp.incrementSuccessOp]).consecutiveSuccesses := by
  decide

/-- C7 amended: for every operation sequence from a state with non-negative
counters, the counters never go negative; and after any single operation
other than `IncrementSuccess` the two counters are not both strictly
positive (`IncrementSuccess` leaves `consecutive_errors` untouched, so it
can produce a state where both are positive). -/
theorem counters_nonneg_and_not_both_positive (start : BeaconNode) (ops : List CounterOp)
    (h1 : 0 ≤ start.consecutiveErrors) (h2 : 0 ≤ start.consecutiveSuccesses) :
    0 ≤ (runCounterOps start ops).consecutiveErrors ∧
    0 ≤ (runCounterOps start ops).consecutiveSuccesses ∧
    ∀ op : CounterOp, op ≠ CounterOp.incrementSuccessOp →
      ¬(0 < (applyCounterOp (runCounterOps start ops) op).consecutiveErrors ∧
        0 < (applyCounterOp (runCounterOps start ops) op).consecutiveSuccesses) := by
  have main : ∀ (l : List CounterOp) (s : BeaconNode),
      0 ≤ s.consecutiveErrors → 0 ≤ s.consecutiveSuccesses →
      0 ≤ (runCounterOps s l).consecutiveErrors ∧
      0 ≤ (runCounterOps s l).consecutiveSuccesses := by
    intro l
    induction l with
    | nil => intro s hs1 hs2; exact ⟨hs1, hs2⟩
    | cons op rest ih =>
      intro s hs1 hs2
      have hstep : 0 ≤ (applyCounterOp s op).consecutiveErrors ∧
          0 ≤ (applyCounterOp s op).consecutiveSuccesses := by
        cases op <;>
          simp [applyCounterOp, BeaconNode.incrementError, BeaconNode.incrementSuccess,
            BeaconNode.resetErrors, BeaconNode.resetSuccesses] <;> omega
      exact ih (applyCounterOp s op) hstep.1 hstep.2
  refine ⟨(main ops start h1 h2).1, (main ops start h1 h2).2, ?_⟩
  intro op hop
  cases op with
  | incrementSuccessOp => exact absurd rfl hop
  | incrementErrorOp =>
    simp [applyCounterOp, BeaconNode.incrementError]
  | resetErrorsOp =>
    simp [applyCounterOp, BeaconNode.resetErrors]
  | resetSuccessesOp =>
    simp [applyCounterOp, BeaconNode.resetSuccesses]

/-- Witness for the amended C7 theorem at a concrete input. -/
theorem counters_nonneg_and_not_both_positive_witness :
    0 ≤ (runCounterOps (mkNode "p" 0) [CounterOp.incrementErrorOp]).consecutiveErrors := by
  have h := counters_nonneg_and_not_both_positive (mkNode "p" 0)
    [CounterOp.incrementErrorOp] (by decide) (by decide)
  exact h.1

/-! ## LoadBalancer state (cmd/loadbalancer/loadbalancer.go)

The Go struct holds `nodes []*BeaconNode` (configured order, shared mutable
descriptors) and `healthyNodes []*BeaconNode` (references into `nodes`).
Pointer sharing is modelled by keeping the node records in `nodes` and
representing the healthy set as a list of node names; names are unique per
configuration. -/

structure LoadBalancer where
  nodes : List BeaconNode
  healthyNodes : List String
deriving DecidableEq

/-- Look up the descriptor a healthy-set reference points at. -/
def findNode (lb : LoadBalancer) (name : String) : Option BeaconNode :=
  lb.nodes.find? (fun n => n.name == name)

/-- Mutate the shared descriptor named `name` (visible through every
reference to it, exactly as a Go pointer write). -/
def updateNode (lb : LoadBalancer) (name : String) (f : BeaconNode → BeaconNode) :
    LoadBalancer :=
  { lb with nodes := lb.nodes.map (fun n => if n.name == name then f n else n) }

/-- Current priority of a referenced node (0 when the reference dangles;
well-formed states never dangle). -/
def nodePriorityOf (lb : LoadBalancer) (name : String) : Int :=
  ((findNode lb name).map (fun n => n.priority)).getD 0

/-- Original priority of a referenced node. -/
def nodeOrigOf (lb : LoadBalancer) (name : String) : Int :=
  ((findNode lb name).map (fun n => n.originalPriority)).getD 0

/-- Consecutive-success counter of a referenced node. -/
def nodeSuccessesOf (lb : LoadBalancer) (name : String) : Int :=
  ((findNode lb name).map (fun n => n.consecutiveSuccesses)).getD 0

/-- Consecutive-error counter of a referenced node. -/
def nodeErrorsOf (lb : LoadBalancer) (name : String) : Int :=
  ((findNode lb name).map (fun n => n.consecutiveErrors)).getD 0

/-- The configuration fields the core reads
(`server.max_retries`, `server.request_timeout`, `failover.error_threshold`,
`health.successful_checks_for_failback`). -/
structure Config where
  maxRetries : Nat
  requestTimeout : Int
  errorThreshold : Int
  failbackThreshold : Int
deriving DecidableEq

/-- An HTTP response as delivered to the client: status code and body. -/
structure HttpResponse where
  status : Nat
  body : String
deriving DecidableEq

/-! ## Startup health check (health_check.go, StartupHealthCheck)

All nodes are probed concurrently; results are drained from a channel in an
arbitrary completion order (`arrival`), healthy nodes are appended in that
order, and the resulting list is sorted ascending by current priority
(`sort.Slice`).  `sort.Slice` is modelled by insertion sort on the same
comparison. -/

def insertByPriority (lb : LoadBalancer) (name : String) :
    List String → List String
  | [] => [name]
  | m :: rest =>
    if nodePriorityOf lb name ≤ nodePriorityOf lb m then name :: m :: rest
    else m :: insertByPriority lb name rest

def sortByPriority (lb : LoadBalancer) : List String → List String
  | [] => []
  | m :: rest => insertByPriority lb m (sortByPriority lb rest)

/-- `StartupHealthCheck`: probe every node (`checkResult` gives, per node, the
`CheckSyncStatus` outcome), collect in channel order `arrival`, keep the
healthy ones, sort ascending by priority, and fail when none is healthy. -/
def startupHealthCheck (lb : LoadBalancer) (checkResult : String → Bool)
    (arrival : List String) : Except String LoadBalancer :=
  let healthy := arrival.filter checkResult
  let sorted := sortByPriority lb healthy
  if sorted.isEmpty then
    Except.error "startup health check failed: no healthy nodes available"
  else
    Except.ok { lb with healthyNodes := sorted }

/-! ## On-request error handling and demotion (response_recorder.go,
handleNodeError) -/

/-- `handleNodeError`: on a 5xx, increment the errors of the node; if it is
the current primary and its consecutive errors reached the threshold, set
its priority to `len(lb.nodes)` and filter it (by name) out of the healthy
set.  4xx responses only log. -/
def handleNodeError (cfg : Config) (lb : LoadBalancer) (name : String)
    (statusCode : Nat) : LoadBalancer :=
  if 500 ≤ statusCode then
    let lb1 := updateNode lb name BeaconNode.incrementError
    match findNode lb1 name with
    | some node =>
      if node.isPrimaryNode && cfg.errorThreshold ≤ node.consecutiveErrors then
        let maxPriority : Int := lb1.nodes.length
        let lb2 := updateNode lb1 name (fun n => n.setPriority maxPriority)
        { lb2 with healthyNodes := lb2.healthyNodes.filter (fun n => n ≠ name) }
      else lb1
    | none => lb1
  else lb

/-! ## HTTP request handling (response_recorder.go, handleHTTPRequest)

The environment of each attempt is abstracted: `resp name` is the (status, body)
the recording response writer captured for that node, `elapsed i` is the
time elapsed when attempt `i` starts, and `ctxDone i` says whether the
done channel of the overall context was observed closed at the
`checkRequestTimeout` select of attempt `i`. -/

structure RequestOutcome where
  lb : LoadBalancer
  response : Option HttpResponse
  attempts : Nat
deriving DecidableEq

/-- The retry loop of `handleHTTPRequest` over the healthy-set snapshot.
`response = none` models the handler returning without writing anything
(the `checkRequestTimeout` early return). -/
def tryNodes (cfg : Config) (resp : String → Nat × String) (elapsed : Nat → Int)
    (ctxDone : Nat → Bool) (lb : LoadBalancer) :
    List String → Nat → RequestOutcome
  | [], _ =>
    { lb := lb, response := some ⟨502, "All beacon nodes unavailable"⟩, attempts := 0 }
  | name :: rest, i =>
    if cfg.maxRetries ≤ i then
      { lb := lb, response := some ⟨502, "All beacon nodes unavailable"⟩, attempts := 0 }
    else if ctxDone i then
      { lb := lb, response := none, attempts := 0 }
    else if cfg.requestTimeout - elapsed i ≤ 0 then
      { lb := lb, response := some ⟨504, "Request timeout"⟩, attempts := 0 }
    else
      let lb1 := updateNode lb name BeaconNode.incrementRequests
      let status := (resp name).1
      if 200 ≤ status ∧ status < 400 then
        { lb := updateNode lb1 name BeaconNode.resetErrors,
          response := some ⟨status, (resp name).2⟩, attempts := 1 }
      else
        let lb2 := handleNodeError cfg lb1 name status
        let r := tryNodes cfg resp elapsed ctxDone lb2 rest (i + 1)
        { lb := r.lb, response := r.response, attempts := r.attempts + 1 }

/-- `handleHTTPRequest`: snapshot the healthy set and run the retry loop
from attempt index 0. -/
def handleHTTPRequest (cfg : Config) (lb : LoadBalancer) (resp : String → Nat × String)
    (elapsed : Nat → Int) (ctxDone : Nat → Bool) : RequestOutcome :=
  tryNodes cfg resp elapsed ctxDone lb lb.healthyNodes 0

/-! ## WebSocket handling (websocket_handler.go) -/

/-- The dial-failure handler inside `connectToUpstreamWebSocket`: increment
errors; if the node is the primary and reached the threshold, demote it to
priority `len(lb.nodes)` and remove it from the healthy set. -/
def wsDialError (cfg : Config) (lb : LoadBalancer) (name : String) : LoadBalancer :=
  let lb1 := updateNode lb name BeaconNode.incrementError
  match findNode lb1 name with
  | some node =>
    if node.isPrimaryNode then
      if cfg.errorThreshold ≤ node.consecutiveErrors then
        let maxPriority : Int := lb1.nodes.length
        let lb2 := updateNode lb1 name (fun n => n.setPriority maxPriority)
        { lb2 with healthyNodes := lb2.healthyNodes.filter (fun n => n ≠ name) }
      else lb1
    else lb1
  | none => lb1

/-- `connectToUpstreamWebSocket`: dial each healthy node in order; on dial
failure run the failure handler and continue; return the first node whose
dial succeeds. -/
def connectToUpstreamWebSocket (cfg : Config) (dial : String → Bool)
    (lb : LoadBalancer) : List String → LoadBalancer × Option String
  | [] => (lb, none)
  | name :: rest =>
    if dial name then (lb, some name)
    else connectToUpstreamWebSocket cfg dial (wsDialError cfg lb name) rest

/-- `handleWebSocket`: reject invalid paths with 403; with an empty healthy
set answer `http.StatusServiceUnavailable` (503) with body
"No healthy beacon nodes available"; otherwise dial through the snapshot,
answering 502 when every dial fails; a successful dial proxies frames
(no canonical HTTP response). -/
def handleWebSocket (cfg : Config) (lb : LoadBalancer) (validPath : Bool)
    (dial : String → Bool) : LoadBalancer × Option HttpResponse :=
  if !validPath then
    (lb, some ⟨403, "Invalid Beacon Chain API endpoint"⟩)
  else
    let healthy := lb.healthyNodes
    if healthy.isEmpty then
      (lb, some ⟨503, "No healthy beacon nodes available"⟩)
    else
      match connectToUpstreamWebSocket cfg dial lb healthy with
      | (lb1, none) =>
        (lb1, some ⟨502, "Failed to establish WebSocket connection to any node"⟩)
      | (lb1, some name) =>
        (updateNode lb1 name BeaconNode.incrementRequests, none)

/-! ## Periodic health check (health_check.go, performHealthCheck)

Backup nodes (`priority > 0`) are probed concurrently; results are drained
from a channel in completion order `arrival` (a permutation of the backup
names).  `probe name` is the `HealthCheck` verdict for that node. -/

/-- Result collection: healthy nodes get `IncrementSuccess(); ResetErrors()`
and join `newHealthyBackups` (in arrival order); unhealthy nodes get
`ResetSuccesses()`. -/
def processResults (probe : String → Bool) (lb : LoadBalancer) :
    List String → LoadBalancer × List String
  | [] => (lb, [])
  | name :: rest =>
    if probe name then
      let lb1 := updateNode (updateNode lb name BeaconNode.incrementSuccess) name
        BeaconNode.resetErrors
      let r := processResults probe lb1 rest
      (r.1, name :: r.2)
    else
      processResults probe (updateNode lb name BeaconNode.resetSuccesses) rest

/-- First healthy backup whose `OriginalPriority` is 0 (the original
primary, if it is in the proposed healthy-backup set). -/
def findOriginalPrimary (lb : LoadBalancer) (healthyBackups : List String) :
    Option String :=
  healthyBackups.find? (fun name =>
    match findNode lb name with
    | some node => node.originalPriority == 0
    | none => false)

/-- The priority-restoration sweep: every proposed healthy backup whose
priority differs from its original priority is set back to it. -/
def restorePriorities (lb : LoadBalancer) : List String → LoadBalancer
  | [] => lb
  | name :: rest =>
    let lb1 :=
      match findNode lb name with
      | some node =>
        if node.priority ≠ node.originalPriority then
          updateNode lb name (fun n => n.setPriority n.originalPriority)
        else lb
      | none => lb
    restorePriorities lb1 rest

/-- Promotion search when no primary exists: first the healthy backup with
`OriginalPriority == 0`; otherwise the fold that keeps the first node whose
current priority is strictly positive and strictly below the running
minimum (initialised to the Go max int). -/
def promoteTarget (lb : LoadBalancer) (healthyBackups : List String) :
    Option String :=
  match findOriginalPrimary lb healthyBackups with
  | some name => some name
  | none =>
    (healthyBackups.foldl (fun acc name =>
      match findNode lb name with
      | some node =>
        if node.priority < acc.1 ∧ 0 < node.priority then (node.priority, some name)
        else acc
      | none => acc) ((9223372036854775807 : Int), (none : Option String))).2

/-- The failback decision block of `performHealthCheck`: when the original
primary is among the proposed healthy backups with enough consecutive
successes and a distinct current primary exists, restore the original
primary to priority 0 (resetting its errors) and demote the current primary
back to its own original priority. -/
def failbackStep (cfg : Config) (lb1 : LoadBalancer)
    (newHealthyBackups : List String) : LoadBalancer :=
  let originalPrimaryName := findOriginalPrimary lb1 newHealthyBackups
  let shouldFailback :=
    match originalPrimaryName with
    | some op => decide (cfg.failbackThreshold ≤ nodeSuccessesOf lb1 op)
    | none => false
  let currentPrimaryName :=
    (lb1.nodes.find? (fun n => n.isPrimaryNode)).map (fun n => n.name)
  match originalPrimaryName, currentPrimaryName with
  | some op, some c =>
    if shouldFailback && c != op then
      let l := updateNode lb1 op (fun n => (n.setPriority 0).resetErrors)
      updateNode l c (fun n => n.setPriority n.originalPriority)
    else lb1
  | _, _ => lb1

/-- The healthy-set rebuild block of `performHealthCheck`: start from the
current primary when it was in the previous healthy set; when no primary
exists promote the selected backup (priority 0, errors reset); append all
proposed healthy backups. -/
def rebuildHealthy (lb3 : LoadBalancer) (newHealthyBackups : List String) :
    LoadBalancer :=
  match lb3.nodes.find? (fun n => n.isPrimaryNode) with
  | some p =>
    let updated := if lb3.healthyNodes.contains p.name then [p.name] else []
    { lb3 with healthyNodes := updated ++ newHealthyBackups }
  | none =>
    if newHealthyBackups.isEmpty then { lb3 with healthyNodes := newHealthyBackups }
    else
      let lb4 :=
        match promoteTarget lb3 newHealthyBackups with
        | some t => updateNode lb3 t (fun n => (n.setPriority 0).resetErrors)
        | none => lb3
      { lb4 with healthyNodes := newHealthyBackups }

/-- `performHealthCheck`: the full periodic pass — probe backups
(`priority > 0`), collect results in completion order, failback, restore
priorities of healthy backups, rebuild and install the healthy set. -/
def performHealthCheck (cfg : Config) (probe : String → Bool)
    (arrival : List String) (lb : LoadBalancer) : LoadBalancer :=
  let backupNodes := lb.nodes.filter (fun n => n.isBackupNode)
  if backupNodes.isEmpty then lb
  else
    let collected := processResults probe lb arrival
    let lb2 := failbackStep cfg collected.1 collected.2
    let lb3 := restorePriorities lb2 collected.2
    rebuildHealthy lb3 collected.2

/-! ## Well-formedness of load-balancer states

`loadbalancer.New` assigns `Priority = OriginalPriority = i` along the
configured order, node names are unique, and the healthy set only ever
holds references to configured nodes. -/

/-- Configured node names are pairwise distinct. -/
def namesNodup (lb : LoadBalancer) : Prop :=
  (lb.nodes.map (fun n => n.name)).Nodup

/-- Original priorities are exactly `0..N-1` along the configured order
(`New` sets `OriginalPriority = i`; the field is never written again). -/
def origIsRange (lb : LoadBalancer) : Prop :=
  lb.nodes.map (fun n => n.originalPriority) =
    (List.range lb.nodes.length).map Int.ofNat

/-- Every healthy-set reference resolves to a configured node. -/
def refsResolve (lb : LoadBalancer) (names : List String) : Prop :=
  ∀ m ∈ names, ∃ q ∈ lb.nodes, q.name = m

/-- At most one backend of the healthy set has `priority == 0`
(stated on names, i.e. on backend identities). -/
def atMostOnePrimaryHealthy (lb : LoadBalancer) : Prop :=
  ∀ a ∈ lb.nodes, ∀ b ∈ lb.nodes,
    a.name ∈ lb.healthyNodes → b.name ∈ lb.healthyNodes →
    a.priority = 0 → b.priority = 0 → a.name = b.name

instance (lb : LoadBalancer) : Decidable (namesNodup lb) :=
  inferInstanceAs (Decidable (List.Nodup _))

instance (lb : LoadBalancer) : Decidable (origIsRange lb) :=
  inferInstanceAs (Decidable (_ = _))

instance (lb : LoadBalancer) (names : List String) :
    Decidable (refsResolve lb names) :=
  inferInstanceAs (Decidable (∀ m ∈ names, ∃ q ∈ lb.nodes, q.name = m))

instance (lb : LoadBalancer) : Decidable (atMostOnePrimaryHealthy lb) :=
  inferInstanceAs (Decidable (∀ a ∈ lb.nodes, ∀ b ∈ lb.nodes,
    a.name ∈ lb.healthyNodes → b.name ∈ lb.healthyNodes →
    a.priority = 0 → b.priority = 0 → a.name = b.name))

/-! ## Concrete fixtures used by counterexamples and witnesses -/

/-- `max_retries = 3`, `request_timeout = 1000`, `error_threshold = 3`,
`successful_checks_for_failback = 3`. -/
def cfgTwo : Config := ⟨3, 1000, 3, 3⟩

/-- Two freshly constructed nodes `p` (primary) and `b` (backup), both
healthy after startup. -/
def lbTwo : LoadBalancer := ⟨[mkNode "p" 0, mkNode "b" 1], ["p", "b"]⟩

/-- Upstream behaviour: `p` always answers 500, `b` always answers 200. -/
def respTwo : String → Nat × String := fun name =>
  if name = "p" then (500, "internal server error") else (200, "head_slot 67890")

/-- No time has elapsed before any attempt. -/
def zeroElapsed : Nat → Int := fun _ => 0

/-- The overall deadline has already elapsed before every attempt. -/
def expiredElapsed : Nat → Int := fun _ => 2000

/-- The done channel of the overall context is never observed closed. -/
def neverDone : Nat → Bool := fun _ => false

/-- The done channel of the overall context is observed closed at every
`checkRequestTimeout` select. -/
def alwaysDone : Nat → Bool := fun _ => true

/-- First client request against `[p, b]` with `p` failing. -/
def reqOne : RequestOutcome := handleHTTPRequest cfgTwo lbTwo respTwo zeroElapsed neverDone

/-- Second client request (same upstream behaviour). -/
def reqSecond : RequestOutcome :=
  handleHTTPRequest cfgTwo reqOne.lb respTwo zeroElapsed neverDone

/-- Third client request: during it `p` reaches the error threshold and is
demoted. -/
def reqThird : RequestOutcome :=
  handleHTTPRequest cfgTwo reqSecond.lb respTwo zeroElapsed neverDone

/-! ## C1 -/

/-- C1 counterexample: starting from the post-startup state with both nodes
healthy, three requests against a failing primary demote `p` on-request;
afterwards the healthy set is the nonempty `["b"]` and no backend in it has
`priority == 0` — violating "either the healthy set is empty or exactly one
backend in the healthy set has priority 0". -/
theorem demotion_leaves_no_primary_in_healthy_set :
    reqThird.lb.healthyNodes ≠ [] ∧
    ∀ a ∈ reqThird.lb.nodes, a.name ∈ reqThird.lb.healthyNodes → a.priority ≠ 0 := by
  decide

/-! ## C3 -/

/-- C3 counterexample: with backends `[p, b]`, `p` always 500, `b` always
200, `error_threshold = 3` and `max_retries = 3`, the FIRST client request
already returns 200 (served by `b`): the retry loop falls through to the
backup on the very first 5xx, so requests 1 and 2 do not return 500 as the
claim states (the recorded 500 is never flushed to the client at all). -/
theorem first_request_fails_over_within_request :
    reqOne.response = some ⟨200, "head_slot 67890"⟩ ∧
    reqOne.attempts = 2 ∧
    nodeErrorsOf reqOne.lb "p" = 1 := by
  decide

/-- C3 amended: with backends `[p, b]` where `p` always returns 500 and `b`
returns 200, `error_threshold = 3` and sufficient `max_retries`, every one
of the first three requests returns the 200 response of `b` (failover to `b`
happens within each request on the first 5xx); the consecutive errors of `p`
reach 3 during the third request, at which point `p` is demoted
(`priority = 2`, the configured count) and removed from the healthy set,
and the third request still returns the 200 response of `b`. -/
theorem failover_scenario_three_requests :
    reqOne.response = some ⟨200, "head_slot 67890"⟩ ∧
    reqSecond.response = some ⟨200, "head_slot 67890"⟩ ∧
    reqThird.response = some ⟨200, "head_slot 67890"⟩ ∧
    nodeErrorsOf reqThird.lb "p" = 3 ∧
    nodePriorityOf reqThird.lb "p" = 2 ∧
    reqThird.lb.healthyNodes = ["b"] := by
  decide

/-! ## C9 -/

/-- C9: evaluating the retry loop at a request whose overall deadline is
already exceeded before the first attempt.  When the done channel of the context
is observed at the `checkRequestTimeout` select, `handleHTTPRequest`
returns WITHOUT writing any response (the client gets an implicit `200 OK`
with empty body from the Go server, not the specified
`504 "Request timeout"`); the `504` is only produced on the race where the
elapsed-time check fires before the done channel is observed.  No further
attempt is made in either case. -/
theorem timeout_with_ctx_done_writes_no_response :
    (handleHTTPRequest cfgTwo lbTwo respTwo expiredElapsed alwaysDone).response = none ∧
    (handleHTTPRequest cfgTwo lbTwo respTwo expiredElapsed alwaysDone).attempts = 0 ∧
    (handleHTTPRequest cfgTwo lbTwo respTwo expiredElapsed neverDone).response =
      some ⟨504, "Request timeout"⟩ ∧
    (handleHTTPRequest cfgTwo lbTwo respTwo expiredElapsed neverDone).attempts = 0 := by
  decide

/-! ## C10 -/

/-- C10 counterexample: a WebSocket upgrade on a valid path with an empty
healthy set is answered with status 503 (`http.StatusServiceUnavailable`),
not 502 as the claim states; the body does match. -/
theorem ws_empty_healthy_returns_503_not_502 :
    (handleWebSocket cfgTwo ⟨[mkNode "p" 0], []⟩ true (fun _ => true)).2 =
      some ⟨503, "No healthy beacon nodes available"⟩ ∧
    ((handleWebSocket cfgTwo ⟨[mkNode "p" 0], []⟩ true (fun _ => true)).2.map
        (fun r => r.status)) ≠ some 502 := by
  decide

/-- C10 amended: for every WebSocket upgrade request with a valid path
arriving when the healthy set is empty, the proxy responds with status 503
Service Unavailable and body "No healthy beacon nodes available", and the
state is unchanged. -/
theorem ws_empty_healthy_response (cfg : Config) (lb : LoadBalancer)
    (dial : String → Bool) (h : lb.healthyNodes = []) :
    handleWebSocket cfg lb true dial =
      (lb, some ⟨503, "No healthy beacon nodes available"⟩) := by
  simp [handleWebSocket, h]

/-- Witness for the amended C10 theorem at a concrete input. -/
theorem ws_empty_healthy_response_witness :
    handleWebSocket cfgTwo ⟨[mkNode "p" 0], []⟩ true (fun _ => true) =
      (⟨[mkNode "p" 0], []⟩, some ⟨503, "No healthy beacon nodes available"⟩) :=
  ws_empty_healthy_response cfgTwo ⟨[mkNode "p" 0], []⟩ (fun _ => true) rfl

/-! ## C8 counterexample fixture: a periodic pass whose probe results are
collected in an order other than the configured one. -/

/-- Three nodes: `a` is the serving primary (healthy set `["a"]`), backups
`b` and `c` recovered and probe healthy this pass. -/
def lbThree : LoadBalancer :=
  ⟨[mkNode "a" 0, mkNode "b" 1, mkNode "c" 2], ["a"]⟩

/-- The pass with the backup probe results drained in order `c`, `b`. -/
def passReversed : LoadBalancer :=
  performHealthCheck cfgTwo (fun _ => true) ["c", "b"] lbThree

/-- C8 counterexample: the periodic rebuild appends healthy backups in
probe-completion order without sorting: collecting `c` before `b` yields
healthy set `["a", "c", "b"]` with priorities `[0, 2, 1]`, which is not
sorted ascending by priority. -/
theorem periodic_rebuild_can_unsort_healthy_set :
    passReversed.healthyNodes = ["a", "c", "b"] ∧
    passReversed.healthyNodes.map (nodePriorityOf passReversed) = [0, 2, 1] ∧
    ¬ List.Pairwise (fun x y => nodePriorityOf passReversed x ≤ nodePriorityOf passReversed y)
        passReversed.healthyNodes := by
  decide

/-! ## Framing lemmas for the state model -/

theorem updateNode_healthy (lb : LoadBalancer) (a : String) (f : BeaconNode → BeaconNode) :
    (updateNode lb a f).healthyNodes = lb.healthyNodes := rfl

theorem findNode_set_healthy (lb : LoadBalancer) (h : List String) (m : String) :
    findNode { nodes := lb.nodes, healthyNodes := h } m = findNode lb m := rfl

theorem updateNode_length (lb : LoadBalancer) (a : String) (f : BeaconNode → BeaconNode) :
    (updateNode lb a f).nodes.length = lb.nodes.length := by
  simp [updateNode]

theorem find?_map_if_self {l : List BeaconNode} {f : BeaconNode → BeaconNode}
    (hf : ∀ n, (f n).name = n.name) (m : String) :
    (l.map (fun n => if n.name == m then f n else n)).find? (fun n => n.name == m) =
      (l.find? (fun n => n.name == m)).map f := by
  induction l with
  | nil => rfl
  | cons h t ih =>
    by_cases hh : h.name = m
    · simp [List.find?, hh, hf]
    · simp only [List.map_cons]
      rw [if_neg (by simp [hh])]
      rw [List.find?_cons_of_neg _ (by simp [hh]), List.find?_cons_of_neg _ (by simp [hh])]
      exact ih

theorem find?_map_if_ne {l : List BeaconNode} {f : BeaconNode → BeaconNode}
    (hf : ∀ n, (f n).name = n.name) {a b : String} (hne : b ≠ a) :
    (l.map (fun n => if n.name == a then f n else n)).find? (fun n => n.name == b) =
      l.find? (fun n => n.name == b) := by
  induction l with
  | nil => rfl
  | cons h t ih =>
    by_cases hh : h.name = b
    · have hna : ¬(h.name == a) = true := by
        simp [hh]
        exact fun hc => absurd hc hne
      simp only [List.map_cons]
      rw [if_neg hna]
      simp [List.find?, hh]
    · by_cases ha : h.name = a
      · simp only [List.map_cons]
        rw [if_pos (by simp [ha])]
        rw [List.find?_cons_of_neg _ (by simp [hf, hh]), List.find?_cons_of_neg _ (by simp [hh])]
        exact ih
      · simp only [List.map_cons]
        rw [if_neg (by simp [ha])]
        rw [List.find?_cons_of_neg _ (by simp [hh]), List.find?_cons_of_neg _ (by simp [hh])]
        exact ih

theorem findNode_updateNode_self {lb : LoadBalancer} {f : BeaconNode → BeaconNode}
    (hf : ∀ n, (f n).name = n.name) (a : String) :
    findNode (updateNode lb a f) a = (findNode lb a).map f :=
  find?_map_if_self hf a

theorem findNode_updateNode_ne {lb : LoadBalancer} {f : BeaconNode → BeaconNode}
    (hf : ∀ n, (f n).name = n.name) {a b : String} (hne : b ≠ a) :
    findNode (updateNode lb a f) b = findNode lb b :=
  find?_map_if_ne hf hne

theorem mem_of_findNode {lb : LoadBalancer} {m : String} {q : BeaconNode}
    (h : findNode lb m = some q) : q ∈ lb.nodes ∧ q.name = m := by
  have h1 := List.mem_of_find?_eq_some h
  have h2 := List.find?_some h
  exact ⟨h1, by simpa using h2⟩

theorem find?_name_of_mem_nodup {l : List BeaconNode}
    (hnd : (l.map (fun n => n.name)).Nodup)
    {q : BeaconNode} (hq : q ∈ l) : l.find? (fun n => n.name == q.name) = some q := by
  induction l with
  | nil => cases hq
  | cons h t ih =>
    rcases List.mem_cons.mp hq with rfl | hmem
    · simp [List.find?]
    · have hne : h.name ≠ q.name := by
        intro he
        have : q.name ∈ t.map (fun n => n.name) := List.mem_map_of_mem _ hmem
        rw [List.map_cons] at hnd
        exact (List.nodup_cons.mp hnd).1 (he ▸ this)
      rw [List.find?_cons_of_neg _ (by simp [hne])]
      exact ih (by rw [List.map_cons] at hnd; exact (List.nodup_cons.mp hnd).2) hmem

theorem findNode_of_mem_nodup {lb : LoadBalancer} (hnd : namesNodup lb)
    {q : BeaconNode} (hq : q ∈ lb.nodes) : findNode lb q.name = some q :=
  find?_name_of_mem_nodup hnd hq

theorem name_eq_of_mem_nodup {lb : LoadBalancer} (hnd : namesNodup lb)
    {a b : BeaconNode} (ha : a ∈ lb.nodes) (hb : b ∈ lb.nodes)
    (h : a.name = b.name) : a = b := by
  have h1 := findNode_of_mem_nodup hnd ha
  have h2 := findNode_of_mem_nodup hnd hb
  rw [h] at h1
  rw [h1] at h2
  exact (Option.some_injective _ h2)

theorem updateNode_mem {lb : LoadBalancer} {a : String} {f : BeaconNode → BeaconNode}
    {q : BeaconNode} (hq : q ∈ (updateNode lb a f).nodes) :
    ∃ n ∈ lb.nodes, q = if n.name == a then f n else n := by
  rcases List.mem_map.mp hq with ⟨n, hn, he⟩
  exact ⟨n, hn, he.symm⟩

theorem updateNode_map_name {lb : LoadBalancer} {a : String}
    {f : BeaconNode → BeaconNode} (hf : ∀ n, (f n).name = n.name) :
    (updateNode lb a f).nodes.map (fun n => n.name) = lb.nodes.map (fun n => n.name) := by
  simp only [updateNode, List.map_map]
  apply List.map_congr_left
  intro n _
  by_cases h : n.name = a <;> simp [h, hf]

theorem updateNode_namesNodup {lb : LoadBalancer} {a : String}
    {f : BeaconNode → BeaconNode} (hf : ∀ n, (f n).name = n.name)
    (hnd : namesNodup lb) : namesNodup (updateNode lb a f) := by
  unfold namesNodup
  rw [updateNode_map_name hf]
  exact hnd

/-- The identity-relevant fields of a node: name, current priority,
original priority.  Counter operations preserve this key. -/
def keyOf (n : BeaconNode) : String × Int × Int :=
  (n.name, n.priority, n.originalPriority)

theorem updateNode_map_key {lb : LoadBalancer} {a : String}
    {f : BeaconNode → BeaconNode} (hf : ∀ n, keyOf (f n) = keyOf n) :
    (updateNode lb a f).nodes.map keyOf = lb.nodes.map keyOf := by
  simp only [updateNode, List.map_map]
  apply List.map_congr_left
  intro n _
  by_cases h : n.name = a <;> simp [h, hf]

theorem find?_congr_of_map_eq {β : Type} {K : BeaconNode → β} {l1 l2 : List BeaconNode}
    (h : l1.map K = l2.map K) {p : BeaconNode → Bool}
    (hp : ∀ n n', K n = K n' → p n = p n') :
    (l1.find? p).map K = (l2.find? p).map K := by
  induction l1 generalizing l2 with
  | nil =>
    have : l2 = [] := by
      cases l2 with
      | nil => rfl
      | cons x xs => simp at h
    subst this; rfl
  | cons x xs ih =>
    cases l2 with
    | nil => simp at h
    | cons y ys =>
      simp only [List.map_cons, List.cons.injEq] at h
      have hpe : p x = p y := hp x y h.1
      by_cases hx : p x = true
      · rw [List.find?_cons_of_pos _ hx, List.find?_cons_of_pos _ (hpe ▸ hx)]
        simp [h.1]
      · rw [List.find?_cons_of_neg _ hx, List.find?_cons_of_neg _ (by rw [← hpe]; exact hx)]
        exact ih h.2

theorem find?_eq_some_of_unique {α : Type} {l : List α} {p : α → Bool}
    {a : α} (ha : a ∈ l) (hpa : p a = true)
    (huniq : ∀ b ∈ l, p b = true → b = a) : l.find? p = some a := by
  induction l with
  | nil => cases ha
  | cons h t ih =>
    rcases List.mem_cons.mp ha with rfl | hmem
    · rw [List.find?_cons_of_pos _ hpa]
    · by_cases hh : p h = true
      · have := huniq h (List.mem_cons_self _ _) hh
        subst this
        rw [List.find?_cons_of_pos _ hpa]
      · rw [List.find?_cons_of_neg _ hh]
        exact ih hmem (fun b hb hpb => huniq b (List.mem_cons_of_mem _ hb) hpb)

/-- With original priorities `0..N-1` in configured order, the node with
`original_priority == 0` is the head of the configured list. -/
theorem head_of_orig_zero {l : List BeaconNode}
    (h : l.map (fun n => n.originalPriority) = (List.range l.length).map Int.ofNat)
    {q : BeaconNode} (hq : q ∈ l) (h0 : q.originalPriority = 0) :
    ∃ t, l = q :: t := by
  cases l with
  | nil => cases hq
  | cons x xs =>
    rcases List.mem_cons.mp hq with rfl | hmem
    · exact ⟨xs, rfl⟩
    · exfalso
      simp only [List.length_cons, List.range_succ_eq_map, List.map_cons, List.map_map,
        List.cons.injEq] at h
      have : q.originalPriority ∈ xs.map (fun n => n.originalPriority) :=
        List.mem_map_of_mem _ hmem
      rw [h.2] at this
      rcases List.mem_map.mp this with ⟨k, _, hk⟩
      rw [h0] at hk
      simp [Function.comp] at hk
      omega

theorem orig_nonneg {l : List BeaconNode}
    (h : l.map (fun n => n.originalPriority) = (List.range l.length).map Int.ofNat)
    {q : BeaconNode} (hq : q ∈ l) : 0 ≤ q.originalPriority := by
  have : q.originalPriority ∈ l.map (fun n => n.originalPriority) :=
    List.mem_map_of_mem _ hq
  rw [h] at this
  rcases List.mem_map.mp this with ⟨k, _, hk⟩
  rw [← hk]
  exact Int.ofNat_nonneg k

/-! ### processResults framing -/

theorem processResults_healthy (probe : String → Bool) (lb : LoadBalancer)
    (l : List String) : (processResults probe lb l).1.healthyNodes = lb.healthyNodes := by
  induction l generalizing lb with
  | nil => rfl
  | cons h t ih =>
    by_cases hp : probe h = true <;> simp [processResults, hp, ih, updateNode_healthy]

theorem processResults_snd (probe : String → Bool) (lb : LoadBalancer)
    (l : List String) : (processResults probe lb l).2 = l.filter probe := by
  induction l generalizing lb with
  | nil => rfl
  | cons h t ih =>
    by_cases hp : probe h = true <;> simp [processResults, hp, ih, List.filter_cons]

theorem processResults_map_key (probe : String → Bool) (lb : LoadBalancer)
    (l : List String) :
    (processResults probe lb l).1.nodes.map keyOf = lb.nodes.map keyOf := by
  induction l generalizing lb with
  | nil => rfl
  | cons h t ih =>
    by_cases hp : probe h = true
    · simp only [processResults, hp, if_pos]
      rw [ih]
      rw [updateNode_map_key (by intro n; rfl), updateNode_map_key (by intro n; rfl)]
    · have hpf : probe h = false := by simpa using hp
      simp only [processResults, hpf, Bool.false_eq_true, if_false]
      rw [ih, updateNode_map_key (by intro n; rfl)]

theorem processResults_findNode_not_mem (probe : String → Bool) {lb : LoadBalancer}
    {l : List String} {m : String} (hm : m ∉ l) :
    findNode (processResults probe lb l).1 m = findNode lb m := by
  induction l generalizing lb with
  | nil => rfl
  | cons h t ih =>
    have hne : m ≠ h := fun he => hm (he ▸ List.mem_cons_self _ _)
    have hmt : m ∉ t := fun ht => hm (List.mem_cons_of_mem _ ht)
    by_cases hp : probe h = true
    · simp only [processResults, hp, if_pos]
      rw [ih hmt, findNode_updateNode_ne (by intro n; rfl) hne,
        findNode_updateNode_ne (by intro n; rfl) hne]
    · have hpf : probe h = false := by simpa using hp
      simp only [processResults, hpf, Bool.false_eq_true, if_false]
      rw [ih hmt, findNode_updateNode_ne (by intro n; rfl) hne]

theorem processResults_findNode_mem (probe : String → Bool) {lb : LoadBalancer}
    {l : List String} {m : String} (hl : l.Nodup) (hm : m ∈ l)
    (hp : probe m = true) :
    findNode (processResults probe lb l).1 m =
      (findNode lb m).map (fun n => (n.incrementSuccess).resetErrors) := by
  induction l generalizing lb with
  | nil => cases hm
  | cons h t ih =>
    rcases List.mem_cons.mp hm with rfl | hmem
    · have hmt : m ∉ t := (List.nodup_cons.mp hl).1
      simp only [processResults, hp, if_pos]
      rw [processResults_findNode_not_mem probe hmt,
        findNode_updateNode_self (by intro n; rfl),
        findNode_updateNode_self (by intro n; rfl), Option.map_map]
      rfl
    · have hne : m ≠ h := by
        intro he
        exact (List.nodup_cons.mp hl).1 (he ▸ hmem)
      by_cases hph : probe h = true
      · simp only [processResults, hph, if_pos]
        rw [ih (List.nodup_cons.mp hl).2 hmem,
          findNode_updateNode_ne (by intro n; rfl) hne,
          findNode_updateNode_ne (by intro n; rfl) hne]
      · have hpf : probe h = false := by simpa using hph
        simp only [processResults, hpf, Bool.false_eq_true, if_false]
        rw [ih (List.nodup_cons.mp hl).2 hmem,
          findNode_updateNode_ne (by intro n; rfl) hne]

theorem map_name_of_map_key {l1 l2 : List BeaconNode}
    (h : l1.map keyOf = l2.map keyOf) :
    l1.map (fun n => n.name) = l2.map (fun n => n.name) := by
  have := congrArg (List.map (fun x : String × Int × Int => x.1)) h
  simpa [List.map_map, keyOf, Function.comp] using this

theorem map_orig_of_map_key {l1 l2 : List BeaconNode}
    (h : l1.map keyOf = l2.map keyOf) :
    l1.map (fun n => n.originalPriority) = l2.map (fun n => n.originalPriority) := by
  have := congrArg (List.map (fun x : String × Int × Int => x.2.2)) h
  simpa [List.map_map, keyOf, Function.comp] using this

theorem length_of_map_key {l1 l2 : List BeaconNode}
    (h : l1.map keyOf = l2.map keyOf) : l1.length = l2.length := by
  have := congrArg List.length h
  simpa using this

/-- The immutable identity of a node: name and original priority.
Priority writes preserve this key. -/
def keyNO (n : BeaconNode) : String × Int :=
  (n.name, n.originalPriority)

theorem updateNode_map_keyNO {lb : LoadBalancer} {a : String}
    {f : BeaconNode → BeaconNode} (hf : ∀ n, keyNO (f n) = keyNO n) :
    (updateNode lb a f).nodes.map keyNO = lb.nodes.map keyNO := by
  simp only [updateNode, List.map_map]
  apply List.map_congr_left
  intro n _
  by_cases h : n.name = a <;> simp [h, hf]

theorem map_name_of_map_keyNO {l1 l2 : List BeaconNode}
    (h : l1.map keyNO = l2.map keyNO) :
    l1.map (fun n => n.name) = l2.map (fun n => n.name) := by
  have := congrArg (List.map (fun x : String × Int => x.1)) h
  simpa [List.map_map, keyNO, Function.comp] using this

theorem map_orig_of_map_keyNO {l1 l2 : List BeaconNode}
    (h : l1.map keyNO = l2.map keyNO) :
    l1.map (fun n => n.originalPriority) = l2.map (fun n => n.originalPriority) := by
  have := congrArg (List.map (fun x : String × Int => x.2)) h
  simpa [List.map_map, keyNO, Function.comp] using this

theorem length_of_map_keyNO {l1 l2 : List BeaconNode}
    (h : l1.map keyNO = l2.map keyNO) : l1.length = l2.length := by
  have := congrArg List.length h
  simpa using this

theorem setPriority_orig_self {n : BeaconNode} (h : n.priority = n.originalPriority) :
    n.setPriority n.originalPriority = n := by
  cases n
  simp_all [BeaconNode.setPriority]

theorem setPriority_orig_idem (n : BeaconNode) :
    (n.setPriority n.originalPriority).setPriority
      (n.setPriority n.originalPriority).originalPriority =
    n.setPriority n.originalPriority := rfl

/-! ### restorePriorities framing -/

theorem restorePriorities_healthy (lb : LoadBalancer) (l : List String) :
    (restorePriorities lb l).healthyNodes = lb.healthyNodes := by
  induction l generalizing lb with
  | nil => rfl
  | cons h t ih =>
    simp only [restorePriorities]
    cases findNode lb h with
    | none => exact ih lb
    | some node =>
      by_cases hp : node.priority = node.originalPriority
      · simp only [hp, ne_eq, not_true_eq_false, if_false]
        exact ih lb
      · simp only [ne_eq, hp, not_false_eq_true, if_true]
        rw [ih, updateNode_healthy]

theorem restorePriorities_map_keyNO (lb : LoadBalancer) (l : List String) :
    (restorePriorities lb l).nodes.map keyNO = lb.nodes.map keyNO := by
  induction l generalizing lb with
  | nil => rfl
  | cons h t ih =>
    simp only [restorePriorities]
    cases findNode lb h with
    | none => exact ih lb
    | some node =>
      by_cases hp : node.priority = node.originalPriority
      · simp only [hp, ne_eq, not_true_eq_false, if_false]
        exact ih lb
      · simp only [ne_eq, hp, not_false_eq_true, if_true]
        rw [ih, updateNode_map_keyNO (by intro n; rfl)]

theorem restorePriorities_findNode_not_mem {lb : LoadBalancer} {l : List String}
    {m : String} (hm : m ∉ l) :
    findNode (restorePriorities lb l) m = findNode lb m := by
  induction l generalizing lb with
  | nil => rfl
  | cons h t ih =>
    have hne : m ≠ h := fun he => hm (he ▸ List.mem_cons_self _ _)
    have hmt : m ∉ t := fun ht => hm (List.mem_cons_of_mem _ ht)
    simp only [restorePriorities]
    cases findNode lb h with
    | none => exact ih hmt
    | some node =>
      by_cases hp : node.priority = node.originalPriority
      · simp only [hp, ne_eq, not_true_eq_false, if_false]
        exact ih hmt
      · simp only [ne_eq, hp, not_false_eq_true, if_true]
        rw [ih hmt, findNode_updateNode_ne (by intro n; rfl) hne]

theorem restorePriorities_findNode_mem {lb : LoadBalancer} {l : List String}
    {m : String} (hm : m ∈ l) :
    findNode (restorePriorities lb l) m =
      (findNode lb m).map (fun n => n.setPriority n.originalPriority) := by
  induction l generalizing lb with
  | nil => cases hm
  | cons h t ih =>
    by_cases hme : m = h
    · subst hme
      simp only [restorePriorities]
      cases hfm : findNode lb m with
      | none =>
        by_cases hmt : m ∈ t
        · rw [ih hmt, hfm]
        · rw [restorePriorities_findNode_not_mem hmt, hfm]
          rfl
      | some node =>
        by_cases hp : node.priority = node.originalPriority
        · simp only [hp, ne_eq, not_true_eq_false, if_false]
          have hrw : (some node).map
              (fun n : BeaconNode => n.setPriority n.originalPriority) = some node := by
            simp [setPriority_orig_self hp]
          by_cases hmt : m ∈ t
          · rw [ih hmt, hfm, hrw]
          · rw [restorePriorities_findNode_not_mem hmt, hfm]
            exact hrw.symm
        · simp only [ne_eq, hp, not_false_eq_true, if_true]
          have hup : findNode (updateNode lb m (fun n => n.setPriority n.originalPriority)) m =
              some (node.setPriority node.originalPriority) := by
            rw [findNode_updateNode_self (by intro n; rfl), hfm]
            rfl
          by_cases hmt : m ∈ t
          · rw [ih hmt, hup]
            simp [setPriority_orig_idem]
          · rw [restorePriorities_findNode_not_mem hmt, hup]
            simp [hfm]
    · have hmt : m ∈ t := by
        rcases List.mem_cons.mp hm with he | ht
        · exact absurd he hme
        · exact ht
      simp only [restorePriorities]
      cases hfh : findNode lb h with
      | none => exact ih hmt
      | some node =>
        by_cases hp : node.priority = node.originalPriority
        · simp only [hp, ne_eq, not_true_eq_false, if_false]
          exact ih hmt
        · simp only [ne_eq, hp, not_false_eq_true, if_true]
          rw [ih hmt, findNode_updateNode_ne (by intro n; rfl) hme]

/-! ## C2: the retry loop -/

theorem tryNodes_attempts_le (cfg : Config) (resp : String → Nat × String)
    (elapsed : Nat → Int) (ctxDone : Nat → Bool) (lb : LoadBalancer)
    (l : List String) (i : Nat) :
    (tryNodes cfg resp elapsed ctxDone lb l i).attempts ≤
      min l.length (cfg.maxRetries - i) := by
  induction l generalizing lb i with
  | nil => simp [tryNodes]
  | cons name rest ih =>
    by_cases hmax : cfg.maxRetries ≤ i
    · simp [tryNodes, hmax]
    · by_cases hdone : ctxDone i = true
      · simp [tryNodes, hmax, hdone]
      · by_cases htime : cfg.requestTimeout - elapsed i ≤ 0
        · simp [tryNodes, hmax, hdone, htime]
        · by_cases hok : 200 ≤ (resp name).1 ∧ (resp name).1 < 400
          · simp only [tryNodes, if_neg hmax, hdone, Bool.false_eq_true, if_false,
              if_neg htime, if_pos hok]
            simp only [List.length_cons]
            omega
          · simp only [tryNodes, if_neg hmax, hdone, Bool.false_eq_true, if_false,
              if_neg htime, if_neg hok]
            have := ih (handleNodeError cfg
              (updateNode lb name BeaconNode.incrementRequests) name (resp name).1) (i + 1)
            simp only [List.length_cons]
            omega

theorem tryNodes_all_fail (cfg : Config) (resp : String → Nat × String)
    (elapsed : Nat → Int) (ctxDone : Nat → Bool) (lb : LoadBalancer)
    (l : List String) (i : Nat)
    (hnotime : ∀ j, ctxDone j = false ∧ 0 < cfg.requestTimeout - elapsed j)
    (hfail : ∀ m ∈ l, ¬(200 ≤ (resp m).1 ∧ (resp m).1 < 400)) :
    (tryNodes cfg resp elapsed ctxDone lb l i).response =
      some ⟨502, "All beacon nodes unavailable"⟩ := by
  induction l generalizing lb i with
  | nil => simp [tryNodes]
  | cons name rest ih =>
    by_cases hmax : cfg.maxRetries ≤ i
    · simp [tryNodes, hmax]
    · have hdone := (hnotime i).1
      have htime : ¬(cfg.requestTimeout - elapsed i ≤ 0) := by
        have := (hnotime i).2
        omega
      have hok := hfail name (List.mem_cons_self _ _)
      simp only [tryNodes, if_neg hmax, hdone, Bool.false_eq_true, if_false,
        if_neg htime, if_neg hok]
      exact ih _ _ (fun m hm => hfail m (List.mem_cons_of_mem _ hm))

/-- C2: for every HTTP request (valid path, non-upgrade), the routing
engine makes at most `min(len(snapshot), max_retries)` attempts over the
healthy-set snapshot; when no timeout occurs and every attempted backend
fails (status outside [200,400)), the response is
`502 "All beacon nodes unavailable"`; with an empty snapshot the 502 is
returned immediately with zero attempts (no upstream I/O). -/
theorem http_retry_exhaustion_bad_gateway (cfg : Config) (lb : LoadBalancer)
    (resp : String → Nat × String) (elapsed : Nat → Int) (ctxDone : Nat → Bool) :
    (handleHTTPRequest cfg lb resp elapsed ctxDone).attempts ≤
      min lb.healthyNodes.length cfg.maxRetries ∧
    ((∀ j, ctxDone j = false ∧ 0 < cfg.requestTimeout - elapsed j) →
      (∀ m ∈ lb.healthyNodes, ¬(200 ≤ (resp m).1 ∧ (resp m).1 < 400)) →
      (handleHTTPRequest cfg lb resp elapsed ctxDone).response =
        some ⟨502, "All beacon nodes unavailable"⟩) ∧
    (lb.healthyNodes = [] →
      (handleHTTPRequest cfg lb resp elapsed ctxDone).response =
        some ⟨502, "All beacon nodes unavailable"⟩ ∧
      (handleHTTPRequest cfg lb resp elapsed ctxDone).attempts = 0) := by
  refine ⟨?_, ?_, ?_⟩
  · have := tryNodes_attempts_le cfg resp elapsed ctxDone lb lb.healthyNodes 0
    simpa [handleHTTPRequest] using this
  · intro hnotime hfail
    exact tryNodes_all_fail cfg resp elapsed ctxDone lb lb.healthyNodes 0 hnotime hfail
  · intro h
    unfold handleHTTPRequest
    rw [h]
    exact ⟨rfl, rfl⟩

/-- Upstream behaviour where every backend answers 500. -/
def respAllFail : String → Nat × String := fun _ => (500, "internal server error")

/-- Witness for the C2 theorem at a concrete input. -/
theorem http_retry_exhaustion_bad_gateway_witness :
    (handleHTTPRequest cfgTwo lbTwo respAllFail zeroElapsed neverDone).response =
      some ⟨502, "All beacon nodes unavailable"⟩ :=
  (http_retry_exhaustion_bad_gateway cfgTwo lbTwo respAllFail zeroElapsed neverDone).2.1
    (fun j => ⟨rfl, by norm_num [cfgTwo, zeroElapsed]⟩) (by decide)

/-! ## C4: on-request demotion -/

/-- C4: when an attempt against the current primary (`priority == 0`)
yields a status ≥ 500 and its consecutive errors reach the threshold,
`handleNodeError` sets the priority of the backend to `N = len(lb.nodes)` and
removes exactly it from the healthy set, promoting nothing inline (every
other backend keeps its priority untouched); reads after the demotion (without
any scheduler pass) observe exactly this state.  `wsDialError` — the
dial-failure handler of the WebSocket path — has the same effect. -/
theorem on_request_demotion_effect (cfg : Config) (lb : LoadBalancer) {p : BeaconNode}
    (hnd : namesNodup lb) (hp : p ∈ lb.nodes) (hpri : p.priority = 0)
    {status : Nat} (hst : 500 ≤ status)
    (hth : cfg.errorThreshold ≤ p.consecutiveErrors + 1) :
    ((handleNodeError cfg lb p.name status).healthyNodes =
        lb.healthyNodes.filter (fun n => n ≠ p.name) ∧
      nodePriorityOf (handleNodeError cfg lb p.name status) p.name = lb.nodes.length ∧
      ∀ m, m ≠ p.name →
        nodePriorityOf (handleNodeError cfg lb p.name status) m = nodePriorityOf lb m) ∧
    ((wsDialError cfg lb p.name).healthyNodes =
        lb.healthyNodes.filter (fun n => n ≠ p.name) ∧
      nodePriorityOf (wsDialError cfg lb p.name) p.name = lb.nodes.length ∧
      ∀ m, m ≠ p.name →
        nodePriorityOf (wsDialError cfg lb p.name) m = nodePriorityOf lb m) := by
  have hfind : findNode lb p.name = some p := findNode_of_mem_nodup hnd hp
  have hfind1 : findNode (updateNode lb p.name BeaconNode.incrementError) p.name =
      some p.incrementError := by
    rw [findNode_updateNode_self (by intro n; rfl), hfind]
    rfl
  have hprim : (p.incrementError).isPrimaryNode = true := by
    simp [BeaconNode.isPrimaryNode, BeaconNode.incrementError, hpri]
  have hthr : cfg.errorThreshold ≤ (p.incrementError).consecutiveErrors := by
    simpa [BeaconNode.incrementError] using hth
  constructor
  · simp only [handleNodeError, if_pos hst, hfind1, hprim, hthr, decide_True,
      Bool.and_self, if_true]
    refine ⟨rfl, ?_, ?_⟩
    · unfold nodePriorityOf
      rw [findNode_set_healthy, findNode_updateNode_self (by intro n; rfl), hfind1]
      simp [BeaconNode.setPriority, updateNode_length]
    · intro m hm
      unfold nodePriorityOf
      rw [findNode_set_healthy, findNode_updateNode_ne (by intro n; rfl) hm,
        findNode_updateNode_ne (by intro n; rfl) hm]
  · simp only [wsDialError, hfind1, hprim, if_true, if_pos hthr]
    refine ⟨rfl, ?_, ?_⟩
    · unfold nodePriorityOf
      rw [findNode_set_healthy, findNode_updateNode_self (by intro n; rfl), hfind1]
      simp [BeaconNode.setPriority, updateNode_length]
    · intro m hm
      unfold nodePriorityOf
      rw [findNode_set_healthy, findNode_updateNode_ne (by intro n; rfl) hm,
        findNode_updateNode_ne (by intro n; rfl) hm]

/-- Witness for the C4 theorem at a concrete input: `p` already has two
consecutive errors and the third 500 demotes it. -/
theorem on_request_demotion_effect_witness :
    (handleNodeError cfgTwo
        ⟨[{ mkNode "p" 0 with consecutiveErrors := 2 }, mkNode "b" 1], ["p", "b"]⟩
        "p" 500).healthyNodes = ["b"] := by
  have h := (@on_request_demotion_effect cfgTwo
    ⟨[{ mkNode "p" 0 with consecutiveErrors := 2 }, mkNode "b" 1], ["p", "b"]⟩
    { mkNode "p" 0 with consecutiveErrors := 2 }
    (by decide) (by decide) (by decide) 500 (by decide) (by decide)).1.1
  simpa using h

/-! ## C1: at most one primary in the healthy set -/

theorem atMostOne_transfer {lb lb' : LoadBalancer}
    (hsub : ∀ m, m ∈ lb'.healthyNodes → m ∈ lb.healthyNodes)
    (hpull : ∀ a' ∈ lb'.nodes, a'.name ∈ lb'.healthyNodes → a'.priority = 0 →
      ∃ a ∈ lb.nodes, a.name = a'.name ∧ a.priority = 0)
    (h : atMostOnePrimaryHealthy lb) : atMostOnePrimaryHealthy lb' := by
  intro a ha b hb hah hbh ha0 hb0
  obtain ⟨a2, ha2, hae, ha20⟩ := hpull a ha hah ha0
  obtain ⟨b2, hb2, hbe, hb20⟩ := hpull b hb hbh hb0
  have := h a2 ha2 b2 hb2 (by rw [hae]; exact hsub _ hah)
    (by rw [hbe]; exact hsub _ hbh) ha20 hb20
  rw [hae, hbe] at this
  exact this

theorem atMostOne_updateNode {lb : LoadBalancer} {x : String}
    {f : BeaconNode → BeaconNode}
    (hf : ∀ n, (f n).name = n.name ∧ (f n).priority = n.priority)
    (h : atMostOnePrimaryHealthy lb) : atMostOnePrimaryHealthy (updateNode lb x f) := by
  refine atMostOne_transfer (fun m hm => by rwa [updateNode_healthy] at hm) ?_ h
  intro a' ha' _ h0
  obtain ⟨n, hn, he⟩ := updateNode_mem ha'
  have hname : a'.name = n.name := by
    rw [he]; by_cases hx : (n.name == x) = true <;> simp [hx, (hf n).1]
  have hpri : a'.priority = n.priority := by
    rw [he]; by_cases hx : (n.name == x) = true <;> simp [hx, (hf n).2]
  exact ⟨n, hn, hname.symm, by rw [← hpri]; exact h0⟩

/-- Preservation for the demotion shape: some node is updated (name
preserved) and its name is filtered out of the healthy set. -/
theorem atMostOne_demote_shape {lb : LoadBalancer} {x : String}
    {f g : BeaconNode → BeaconNode}
    (hf : ∀ n, (f n).name = n.name) (hg : ∀ n, (g n).name = n.name)
    (h : atMostOnePrimaryHealthy lb) :
    atMostOnePrimaryHealthy
      { nodes := (updateNode (updateNode lb x f) x g).nodes,
        healthyNodes :=
          (updateNode (updateNode lb x f) x g).healthyNodes.filter
            (fun n => n ≠ x) } := by
  refine atMostOne_transfer ?_ ?_ h
  · intro m hm
    simp only [updateNode_healthy] at hm
    exact (List.mem_filter.mp hm).1
  · intro a' ha' hah h0
    simp only [updateNode_healthy] at hah
    have hax : a'.name ≠ x := by
      have := (List.mem_filter.mp hah).2
      simpa using this
    obtain ⟨n1, hn1, he1⟩ := updateNode_mem ha'
    have hn1x : n1.name ≠ x := by
      intro he
      apply hax
      rw [he1]
      by_cases hx : (n1.name == x) = true <;> simp [hx, hg, he]
    have he1' : a' = n1 := by
      rw [he1, if_neg (by simpa using hn1x)]
    obtain ⟨n, hn, he2⟩ := updateNode_mem hn1
    have hnx : n.name ≠ x := by
      intro he
      apply hn1x
      rw [he2]
      by_cases hx : (n.name == x) = true <;> simp [hx, hf, he]
    have he2' : n1 = n := by
      rw [he2, if_neg (by simpa using hnx)]
    refine ⟨n, hn, ?_, ?_⟩
    · rw [he1', he2']
    · rw [← he2', ← he1']; exact h0

theorem handleNodeError_atMostOne (cfg : Config) (lb : LoadBalancer)
    (name : String) (status : Nat) (h : atMostOnePrimaryHealthy lb) :
    atMostOnePrimaryHealthy (handleNodeError cfg lb name status) := by
  by_cases hst : 500 ≤ status
  · simp only [handleNodeError, if_pos hst]
    cases hf : findNode (updateNode lb name BeaconNode.incrementError) name with
    | none =>
      simp only [hf]
      exact atMostOne_updateNode (fun n => ⟨rfl, rfl⟩) h
    | some node =>
      simp only [hf]
      by_cases hcond :
          (node.isPrimaryNode && decide (cfg.errorThreshold ≤ node.consecutiveErrors)) = true
      · rw [if_pos hcond]
        exact atMostOne_demote_shape (fun n => rfl) (fun n => rfl) h
      · rw [if_neg hcond]
        exact atMostOne_updateNode (fun n => ⟨rfl, rfl⟩) h
  · simp only [handleNodeError, if_neg hst]
    exact h

theorem wsDialError_atMostOne (cfg : Config) (lb : LoadBalancer)
    (name : String) (h : atMostOnePrimaryHealthy lb) :
    atMostOnePrimaryHealthy (wsDialError cfg lb name) := by
  simp only [wsDialError]
  cases hf : findNode (updateNode lb name BeaconNode.incrementError) name with
  | none =>
    simp only [hf]
    exact atMostOne_updateNode (fun n => ⟨rfl, rfl⟩) h
  | some node =>
    simp only [hf]
    by_cases hprim : node.isPrimaryNode = true
    · rw [if_pos hprim]
      by_cases hth : cfg.errorThreshold ≤ node.consecutiveErrors
      · rw [if_pos hth]
        exact atMostOne_demote_shape (fun n => rfl) (fun n => rfl) h
      · rw [if_neg hth]
        exact atMostOne_updateNode (fun n => ⟨rfl, rfl⟩) h
    · rw [if_neg hprim]
      exact atMostOne_updateNode (fun n => ⟨rfl, rfl⟩) h

theorem tryNodes_atMostOne (cfg : Config) (resp : String → Nat × String)
    (elapsed : Nat → Int) (ctxDone : Nat → Bool) (lb : LoadBalancer)
    (l : List String) (i : Nat) (h : atMostOnePrimaryHealthy lb) :
    atMostOnePrimaryHealthy (tryNodes cfg resp elapsed ctxDone lb l i).lb := by
  induction l generalizing lb i with
  | nil => exact h
  | cons name rest ih =>
    by_cases hmax : cfg.maxRetries ≤ i
    · simp only [tryNodes, if_pos hmax]
      exact h
    · by_cases hdone : ctxDone i = true
      · simp only [tryNodes, if_neg hmax, hdone, if_true]
        exact h
      · by_cases htime : cfg.requestTimeout - elapsed i ≤ 0
        · simp only [tryNodes, if_neg hmax, hdone, Bool.false_eq_true, if_false, if_pos htime]
          exact h
        · by_cases hok : 200 ≤ (resp name).1 ∧ (resp name).1 < 400
          · simp only [tryNodes, if_neg hmax, hdone, Bool.false_eq_true, if_false,
              if_neg htime, if_pos hok]
            exact atMostOne_updateNode (fun n => ⟨rfl, rfl⟩)
              (atMostOne_updateNode (fun n => ⟨rfl, rfl⟩) h)
          · simp only [tryNodes, if_neg hmax, hdone, Bool.false_eq_true, if_false,
              if_neg htime, if_neg hok]
            exact ih _ _ (handleNodeError_atMostOne _ _ _ _
              (atMostOne_updateNode (fun n => ⟨rfl, rfl⟩) h))

theorem eq_of_orig_eq {l : List BeaconNode}
    (h : l.map (fun n => n.originalPriority) = (List.range l.length).map Int.ofNat)
    {a b : BeaconNode} (ha : a ∈ l) (hb : b ∈ l)
    (he : a.originalPriority = b.originalPriority) : a = b := by
  have hnd : (l.map (fun n => n.originalPriority)).Nodup := by
    rw [h]
    exact (List.nodup_range _).map (fun x y hxy => Int.ofNat.inj hxy)
  exact List.inj_on_of_nodup_map hnd ha hb he

theorem startup_atMostOne {lb lb' : LoadBalancer} {checkResult : String → Bool}
    {arrival : List String}
    (hpo : ∀ n ∈ lb.nodes, n.priority = n.originalPriority)
    (horig : origIsRange lb)
    (hok : startupHealthCheck lb checkResult arrival = Except.ok lb') :
    atMostOnePrimaryHealthy lb' := by
  simp only [startupHealthCheck] at hok
  by_cases hemp : (sortByPriority lb (arrival.filter checkResult)).isEmpty = true
  · rw [if_pos hemp] at hok
    cases hok
  · rw [if_neg hemp] at hok
    cases hok
    intro a ha b hb _ _ ha0 hb0
    have ha' : a.originalPriority = 0 := by rw [← hpo a ha]; exact ha0
    have hb' : b.originalPriority = 0 := by rw [← hpo b hb]; exact hb0
    have := eq_of_orig_eq horig ha hb (by rw [ha', hb'])
    rw [this]

theorem map_keyNO_of_map_key {l1 l2 : List BeaconNode}
    (h : l1.map keyOf = l2.map keyOf) : l1.map keyNO = l2.map keyNO := by
  have := congrArg (List.map (fun x : String × Int × Int => (x.1, x.2.2))) h
  simpa [List.map_map, keyOf, keyNO, Function.comp] using this

theorem failbackStep_healthy (cfg : Config) (lb1 : LoadBalancer)
    (hb : List String) : (failbackStep cfg lb1 hb).healthyNodes = lb1.healthyNodes := by
  cases hop : findOriginalPrimary lb1 hb with
  | none => simp [failbackStep, hop]
  | some op =>
    cases hcp : (lb1.nodes.find? (fun n => n.isPrimaryNode)).map (fun n => n.name) with
    | none => simp [failbackStep, hop, hcp]
    | some c =>
      by_cases hcond :
          (decide (cfg.failbackThreshold ≤ nodeSuccessesOf lb1 op) && c != op) = true
      · simp [failbackStep, hop, hcp, hcond, updateNode_healthy]
      · simp [failbackStep, hop, hcp, hcond]

theorem failbackStep_map_keyNO (cfg : Config) (lb1 : LoadBalancer)
    (hb : List String) :
    (failbackStep cfg lb1 hb).nodes.map keyNO = lb1.nodes.map keyNO := by
  cases hop : findOriginalPrimary lb1 hb with
  | none => simp [failbackStep, hop]
  | some op =>
    cases hcp : (lb1.nodes.find? (fun n => n.isPrimaryNode)).map (fun n => n.name) with
    | none => simp [failbackStep, hop, hcp]
    | some c =>
      by_cases hcond :
          (decide (cfg.failbackThreshold ≤ nodeSuccessesOf lb1 op) && c != op) = true
      · simp only [failbackStep, hop, hcp, hcond, if_true]
        rw [updateNode_map_keyNO (by intro n; rfl), updateNode_map_keyNO (by intro n; rfl)]
      · simp [failbackStep, hop, hcp, hcond]

/-- The state after collection, failback and priority restoration. -/
def afterRestore (cfg : Config) (probe : String → Bool) (arrival : List String)
    (lb : LoadBalancer) : LoadBalancer :=
  restorePriorities
    (failbackStep cfg (processResults probe lb arrival).1 (processResults probe lb arrival).2)
    (processResults probe lb arrival).2

theorem afterRestore_map_keyNO (cfg : Config) (probe : String → Bool)
    (arrival : List String) (lb : LoadBalancer) :
    (afterRestore cfg probe arrival lb).nodes.map keyNO = lb.nodes.map keyNO := by
  unfold afterRestore
  rw [restorePriorities_map_keyNO, failbackStep_map_keyNO,
    map_keyNO_of_map_key (processResults_map_key probe lb arrival)]

theorem afterRestore_namesNodup (cfg : Config) (probe : String → Bool)
    (arrival : List String) (lb : LoadBalancer) (hnd : namesNodup lb) :
    namesNodup (afterRestore cfg probe arrival lb) := by
  unfold namesNodup at hnd ⊢
  rw [map_name_of_map_keyNO (afterRestore_map_keyNO cfg probe arrival lb)]
  exact hnd

theorem afterRestore_origIsRange (cfg : Config) (probe : String → Bool)
    (arrival : List String) (lb : LoadBalancer) (horig : origIsRange lb) :
    origIsRange (afterRestore cfg probe arrival lb) := by
  unfold origIsRange at horig ⊢
  rw [map_orig_of_map_keyNO (afterRestore_map_keyNO cfg probe arrival lb),
    length_of_map_keyNO (afterRestore_map_keyNO cfg probe arrival lb)]
  exact horig

/-- Every proposed healthy backup has `priority = original_priority` after
the restoration sweep. -/
theorem afterRestore_priority_eq_orig (cfg : Config) (probe : String → Bool)
    (arrival : List String) (lb : LoadBalancer) (hnd : namesNodup lb)
    {m : String} (hm : m ∈ (processResults probe lb arrival).2)
    {q : BeaconNode} (hq : q ∈ (afterRestore cfg probe arrival lb).nodes)
    (hqm : q.name = m) : q.priority = q.originalPriority := by
  have hnd3 : namesNodup (afterRestore cfg probe arrival lb) :=
    afterRestore_namesNodup cfg probe arrival lb hnd
  have hfind : findNode (afterRestore cfg probe arrival lb) m = some q := by
    rw [← hqm]
    exact findNode_of_mem_nodup hnd3 hq
  unfold afterRestore at hfind
  rw [restorePriorities_findNode_mem hm] at hfind
  cases hf2 : findNode
      (failbackStep cfg (processResults probe lb arrival).1
        (processResults probe lb arrival).2) m with
  | none => rw [hf2] at hfind; cases hfind
  | some n2 =>
    rw [hf2] at hfind
    have : n2.setPriority n2.originalPriority = q := by
      simpa using hfind
    rw [← this]
    rfl

/-- The rebuild block preserves (indeed re-establishes) uniqueness of the
healthy-set primary. -/
theorem rebuildHealthy_atMostOne (lb3 : LoadBalancer) (newHB : List String)
    (horig3 : origIsRange lb3)
    (hpriOf : ∀ m ∈ newHB, ∀ q ∈ lb3.nodes, q.name = m →
      q.priority = q.originalPriority) :
    atMostOnePrimaryHealthy (rebuildHealthy lb3 newHB) := by
  cases hfp : lb3.nodes.find? (fun n => n.isPrimaryNode) with
  | some p =>
    simp only [rebuildHealthy, hfp]
    have key : ∀ q ∈ lb3.nodes,
        q.name ∈ (if lb3.healthyNodes.contains p.name then [p.name] else []) ++ newHB →
        q.priority = 0 → q.name = p.name := by
      intro q hq hmem h0
      rcases List.mem_append.mp hmem with hup | hnb
      · by_cases hc : lb3.healthyNodes.contains p.name = true
        · rw [if_pos hc] at hup
          simpa using hup
        · rw [if_neg hc] at hup
          cases hup
      · have hpe : q.priority = q.originalPriority := hpriOf q.name hnb q hq rfl
        have ho0 : q.originalPriority = 0 := by rw [← hpe]; exact h0
        obtain ⟨t, ht⟩ := head_of_orig_zero horig3 hq ho0
        have hq0 : q.isPrimaryNode = true := by
          simp [BeaconNode.isPrimaryNode, h0]
        have : lb3.nodes.find? (fun n => n.isPrimaryNode) = some q := by
          rw [ht]
          exact List.find?_cons_of_pos _ hq0
        rw [hfp] at this
        have := Option.some_injective _ this
        rw [this]
    intro a ha b hb hah hbh ha0 hb0
    exact (key a ha hah ha0).trans (key b hb hbh hb0).symm
  | none =>
    simp only [rebuildHealthy, hfp]
    have hnoprim : ∀ q ∈ lb3.nodes, ¬(q.isPrimaryNode = true) := by
      intro q hq
      exact List.find?_eq_none.mp hfp q hq
    by_cases hemp : newHB.isEmpty = true
    · rw [if_pos hemp]
      intro a _ b _ hah _ _ _
      rw [List.isEmpty_iff.mp hemp] at hah
      cases hah
    · rw [if_neg hemp]
      cases hpt : promoteTarget lb3 newHB with
      | some t =>
        simp only [hpt]
        have key : ∀ q ∈ (updateNode lb3 t
            (fun n => (n.setPriority 0).resetErrors)).nodes,
            q.priority = 0 → q.name = t := by
          intro q hq h0
          obtain ⟨n, hn, he⟩ := updateNode_mem hq
          by_cases hnt : (n.name == t) = true
          · rw [he, if_pos hnt]
            simpa using hnt
          · rw [he, if_neg hnt] at h0
            exact absurd (show n.isPrimaryNode = true by
              simp [BeaconNode.isPrimaryNode, h0]) (hnoprim n hn)
        intro a ha b hb _ _ ha0 hb0
        exact (key a ha ha0).trans (key b hb hb0).symm
      | none =>
        simp only [hpt]
        intro a ha _ _ _ _ ha0 _
        exact absurd (by simp [BeaconNode.isPrimaryNode, ha0]) (hnoprim a ha)

theorem performHealthCheck_atMostOne (cfg : Config) (probe : String → Bool)
    (arrival : List String) (lb : LoadBalancer) (hnd : namesNodup lb)
    (horig : origIsRange lb) (h : atMostOnePrimaryHealthy lb) :
    atMostOnePrimaryHealthy (performHealthCheck cfg probe arrival lb) := by
  by_cases hemp : (lb.nodes.filter (fun n => n.isBackupNode)).isEmpty = true
  · simp only [performHealthCheck, hemp, if_true]
    exact h
  · simp only [performHealthCheck, hemp, Bool.false_eq_true, if_false]
    exact rebuildHealthy_atMostOne _ _
      (afterRestore_origIsRange cfg probe arrival lb horig)
      (fun m hm q hq hqm =>
        afterRestore_priority_eq_orig cfg probe arrival lb hnd hm hq hqm)

/-- C1 amended: after a successful startup health check at most one backend
in the healthy set has `priority == 0`, and this is preserved by every
operation that mutates priorities or the healthy set: on-request demotion
(`handleNodeError`), WebSocket dial-failure demotion (`wsDialError`), the
whole HTTP retry path, and the periodic scheduler pass
(`performHealthCheck`).  "Exactly one" fails on the code: on-request
demotion removes the primary without promoting a replacement, leaving a
nonempty healthy set with no priority-0 member until the next scheduler
pass (see the counterexample). -/
theorem healthy_set_at_most_one_primary :
    (∀ (lb lb' : LoadBalancer) (checkResult : String → Bool) (arrival : List String),
      (∀ n ∈ lb.nodes, n.priority = n.originalPriority) → origIsRange lb →
      startupHealthCheck lb checkResult arrival = Except.ok lb' →
      atMostOnePrimaryHealthy lb') ∧
    (∀ (cfg : Config) (lb : LoadBalancer) (name : String) (status : Nat),
      atMostOnePrimaryHealthy lb →
      atMostOnePrimaryHealthy (handleNodeError cfg lb name status)) ∧
    (∀ (cfg : Config) (lb : LoadBalancer) (name : String),
      atMostOnePrimaryHealthy lb →
      atMostOnePrimaryHealthy (wsDialError cfg lb name)) ∧
    (∀ (cfg : Config) (lb : LoadBalancer) (resp : String → Nat × String)
      (elapsed : Nat → Int) (ctxDone : Nat → Bool),
      atMostOnePrimaryHealthy lb →
      atMostOnePrimaryHealthy (handleHTTPRequest cfg lb resp elapsed ctxDone).lb) ∧
    (∀ (cfg : Config) (probe : String → Bool) (arrival : List String) (lb : LoadBalancer),
      namesNodup lb → origIsRange lb → atMostOnePrimaryHealthy lb →
      atMostOnePrimaryHealthy (performHealthCheck cfg probe arrival lb)) :=
  ⟨fun _ _ _ _ hpo ho hok => startup_atMostOne hpo ho hok,
   fun cfg lb n s h => handleNodeError_atMostOne cfg lb n s h,
   fun cfg lb n h => wsDialError_atMostOne cfg lb n h,
   fun cfg lb r e d h => tryNodes_atMostOne cfg r e d lb lb.healthyNodes 0 h,
   fun cfg p a lb hnd ho h => performHealthCheck_atMostOne cfg p a lb hnd ho h⟩

/-- Witness for the amended C1 theorem at a concrete input. -/
theorem healthy_set_at_most_one_primary_witness :
    atMostOnePrimaryHealthy (performHealthCheck cfgTwo (fun _ => true) ["c", "b"] lbThree) :=
  healthy_set_at_most_one_primary.2.2.2.2 cfgTwo (fun _ => true) ["c", "b"] lbThree
    (by decide) (by decide) (by decide)

/-! ## C5: failback support -/

theorem namesNodup_of_keyNO {lb lb' : LoadBalancer}
    (h : lb'.nodes.map keyNO = lb.nodes.map keyNO) (hnd : namesNodup lb) :
    namesNodup lb' := by
  unfold namesNodup at hnd ⊢
  rw [map_name_of_map_keyNO h]
  exact hnd

theorem origIsRange_of_keyNO {lb lb' : LoadBalancer}
    (h : lb'.nodes.map keyNO = lb.nodes.map keyNO) (horig : origIsRange lb) :
    origIsRange lb' := by
  unfold origIsRange at horig ⊢
  rw [map_orig_of_map_keyNO h, length_of_map_keyNO h]
  exact horig

theorem mem_key_of_map_eq {β : Type} {K : BeaconNode → β} {l1 l2 : List BeaconNode}
    (h : l1.map K = l2.map K) {q : BeaconNode} (hq : q ∈ l1) :
    ∃ n ∈ l2, K n = K q := by
  have : K q ∈ l2.map K := by
    rw [← h]
    exact List.mem_map_of_mem K hq
  rcases List.mem_map.mp this with ⟨n, hn, he⟩
  exact ⟨n, hn, he⟩

theorem find?_isSome_of_exists {l : List BeaconNode} {p : BeaconNode → Bool}
    {q : BeaconNode} (hq : q ∈ l) (hpq : p q = true) :
    ∃ r, l.find? p = some r := by
  cases hf : l.find? p with
  | none => exact absurd hpq (List.find?_eq_none.mp hf q hq)
  | some r => exact ⟨r, rfl⟩

/-- Names handed to the periodic prober reference backups only, so the name
of a priority-0 node never appears among them. -/
theorem primary_not_in_backup_refs {lb : LoadBalancer} {arrival : List String}
    (hnd : namesNodup lb)
    (harr : ∀ m ∈ arrival, ∃ q ∈ lb.nodes, q.name = m ∧ 0 < q.priority)
    {qC : BeaconNode} (hqC : qC ∈ lb.nodes) (h0 : qC.priority = 0) :
    qC.name ∉ arrival := by
  intro hin
  obtain ⟨q, hq, hqe, hqp⟩ := harr _ hin
  have := name_eq_of_mem_nodup hnd hq hqC hqe
  rw [this] at hqp
  omega

/-- When some node of the state is primary, the rebuild only swaps the
healthy set, leaving every descriptor unchanged. -/
theorem rebuildHealthy_findNode {lb3 : LoadBalancer} {newHB : List String}
    {q : BeaconNode} (hq : q ∈ lb3.nodes) (hq0 : q.isPrimaryNode = true)
    (m : String) :
    findNode (rebuildHealthy lb3 newHB) m = findNode lb3 m := by
  obtain ⟨p, hp⟩ := find?_isSome_of_exists hq hq0
  simp only [rebuildHealthy, hp]
  exact findNode_set_healthy lb3 _ m

theorem processResults_namesNodup (probe : String → Bool) (lb : LoadBalancer)
    (arrival : List String) (hnd : namesNodup lb) :
    namesNodup (processResults probe lb arrival).1 :=
  namesNodup_of_keyNO
    (map_keyNO_of_map_key (processResults_map_key probe lb arrival)) hnd

theorem processResults_origIsRange (probe : String → Bool) (lb : LoadBalancer)
    (arrival : List String) (horig : origIsRange lb) :
    origIsRange (processResults probe lb arrival).1 :=
  origIsRange_of_keyNO
    (map_keyNO_of_map_key (processResults_map_key probe lb arrival)) horig

/-- C5: for any configured set of backends, after a periodic scheduler pass
in which the original primary (`original_priority == 0`, currently a
backup) is probed healthy and its consecutive successes (including this
increment of this pass) reach `successful_checks_for_failback`, the original
primary ends the pass with `priority == 0`; and every distinct backend that
was the current primary at the start of the pass ends it with its own
original priority. -/
theorem failback_restores_original_primary (cfg : Config) (probe : String → Bool)
    (arrival : List String) (lb : LoadBalancer)
    (hnd : namesNodup lb) (horig : origIsRange lb)
    (huniq : ∀ a ∈ lb.nodes, ∀ b ∈ lb.nodes, a.priority = 0 → b.priority = 0 → a = b)
    (harr : ∀ m ∈ arrival, ∃ q ∈ lb.nodes, q.name = m ∧ 0 < q.priority)
    (hand : arrival.Nodup)
    {qO : BeaconNode} (hqO : qO ∈ lb.nodes) (horigO : qO.originalPriority = 0)
    (hbackO : 0 < qO.priority)
    (hinO : qO.name ∈ arrival) (hprobeO : probe qO.name = true)
    (hsucc : cfg.failbackThreshold ≤ qO.consecutiveSuccesses + 1) :
    nodePriorityOf (performHealthCheck cfg probe arrival lb) qO.name = 0 ∧
    ∀ qC ∈ lb.nodes, qC.priority = 0 →
      nodePriorityOf (performHealthCheck cfg probe arrival lb) qC.name =
        qC.originalPriority := by
  -- the pass runs: the original primary is a backup, so backups exist
  have hmemB : qO ∈ lb.nodes.filter (fun n => n.isBackupNode) :=
    List.mem_filter.mpr ⟨hqO, by simp [BeaconNode.isBackupNode]; exact hbackO⟩
  have hemp : ¬((lb.nodes.filter (fun n => n.isBackupNode)).isEmpty = true) := by
    intro h
    rw [List.isEmpty_iff.mp h] at hmemB
    cases hmemB
  simp only [performHealthCheck, hemp, Bool.false_eq_true, if_false]
  set L1 := (processResults probe lb arrival).1 with hL1def
  set HB := (processResults probe lb arrival).2 with hHBdef
  have hHB : HB = arrival.filter probe := processResults_snd probe lb arrival
  have hinHB : qO.name ∈ HB := by
    rw [hHB]
    exact List.mem_filter.mpr ⟨hinO, hprobeO⟩
  have hnd1 : namesNodup L1 := processResults_namesNodup probe lb arrival hnd
  have horig1 : origIsRange L1 := processResults_origIsRange probe lb arrival horig
  have hfO1 : findNode L1 qO.name = some ((qO.incrementSuccess).resetErrors) := by
    rw [hL1def, processResults_findNode_mem probe hand hinO hprobeO,
      findNode_of_mem_nodup hnd hqO]
    rfl
  have hO1mem : (qO.incrementSuccess).resetErrors ∈ L1.nodes :=
    (mem_of_findNode hfO1).1
  have hO1orig : ((qO.incrementSuccess).resetErrors).originalPriority = 0 := horigO
  have hO1pri : ((qO.incrementSuccess).resetErrors).priority = qO.priority := rfl
  -- the original primary is found among the healthy backups
  have hfop : findOriginalPrimary L1 HB = some qO.name := by
    apply find?_eq_some_of_unique hinHB
    · rw [hfO1]
      simpa using hO1orig
    · intro b hb hpb
      cases hfb : findNode L1 b with
      | none => rw [hfb] at hpb; cases hpb
      | some nb =>
        rw [hfb] at hpb
        have hnb0 : nb.originalPriority = 0 := by simpa using hpb
        have hnbmem := (mem_of_findNode hfb).1
        have hnbname := (mem_of_findNode hfb).2
        have : nb = (qO.incrementSuccess).resetErrors := by
          apply eq_of_orig_eq horig1 hnbmem hO1mem
          rw [hnb0, hO1orig]
        rw [← hnbname, this]
        rfl
  have hsuccL1 : nodeSuccessesOf L1 qO.name = qO.consecutiveSuccesses + 1 := by
    unfold nodeSuccessesOf
    rw [hfO1]
    simp [BeaconNode.incrementSuccess, BeaconNode.resetErrors]
  have hsb : decide (cfg.failbackThreshold ≤ nodeSuccessesOf L1 qO.name) = true := by
    rw [hsuccL1]
    exact decide_eq_true hsucc
  cases hcp : L1.nodes.find? (fun n => n.isPrimaryNode) with
  | none =>
    -- no current primary: no failback, the restoration sweep promotes qO
    have hfb : failbackStep cfg L1 HB = L1 := by
      simp [failbackStep, hfop, hcp]
    rw [hfb]
    have hf3 : findNode (restorePriorities L1 HB) qO.name =
        some ((((qO.incrementSuccess).resetErrors).setPriority 0)) := by
      rw [restorePriorities_findNode_mem hinHB, hfO1]
      simp [hO1orig]
    have h3mem := (mem_of_findNode hf3).1
    have h3prim : ((((qO.incrementSuccess).resetErrors).setPriority 0)).isPrimaryNode
        = true := by
      simp [BeaconNode.isPrimaryNode, BeaconNode.setPriority]
    constructor
    · unfold nodePriorityOf
      rw [rebuildHealthy_findNode h3mem h3prim, hf3]
      rfl
    · intro qC hqC h0
      exfalso
      have hnotin : qC.name ∉ arrival := primary_not_in_backup_refs hnd harr hqC h0
      have hfC1 : findNode L1 qC.name = some qC := by
        rw [hL1def, processResults_findNode_not_mem probe hnotin]
        exact findNode_of_mem_nodup hnd hqC
      have hCmem := (mem_of_findNode hfC1).1
      exact (List.find?_eq_none.mp hcp qC hCmem)
        (by simp [BeaconNode.isPrimaryNode, h0])
  | some pc =>
    have hpc_mem : pc ∈ L1.nodes := List.mem_of_find?_eq_some hcp
    have hpc_prim : pc.isPrimaryNode = true := List.find?_some hcp
    have hpc_pri : pc.priority = 0 := by
      simpa [BeaconNode.isPrimaryNode] using hpc_prim
    have hne_pcO : pc.name ≠ qO.name := by
      intro he
      have h1 : findNode L1 pc.name = some pc := findNode_of_mem_nodup hnd1 hpc_mem
      rw [he, hfO1] at h1
      have h2 := Option.some_injective _ h1
      have h3 : pc.priority = qO.priority := by
        rw [← h2]
        rfl
      omega
    have hbne2 : (pc.name != qO.name) = true := by
      simpa using hne_pcO
    have hfb : failbackStep cfg L1 HB =
        updateNode (updateNode L1 qO.name (fun n => (n.setPriority 0).resetErrors))
          pc.name (fun n => n.setPriority n.originalPriority) := by
      simp [failbackStep, hfop, hcp, hsb, hbne2]
    rw [hfb]
    have hfO2 : findNode (updateNode
        (updateNode L1 qO.name (fun n => (n.setPriority 0).resetErrors))
        pc.name (fun n => n.setPriority n.originalPriority)) qO.name =
        some ((((qO.incrementSuccess).resetErrors).setPriority 0).resetErrors) := by
      rw [findNode_updateNode_ne (by intro n; rfl) (Ne.symm hne_pcO),
        findNode_updateNode_self (by intro n; rfl), hfO1]
      rfl
    have hf3 : findNode (restorePriorities (updateNode
        (updateNode L1 qO.name (fun n => (n.setPriority 0).resetErrors))
        pc.name (fun n => n.setPriority n.originalPriority)) HB) qO.name =
        some (((((qO.incrementSuccess).resetErrors).setPriority 0).resetErrors).setPriority
          ((((qO.incrementSuccess).resetErrors).setPriority 0).resetErrors).originalPriority) := by
      rw [restorePriorities_findNode_mem hinHB, hfO2]
      rfl
    have h3mem := (mem_of_findNode hf3).1
    have h3prim : (((((qO.incrementSuccess).resetErrors).setPriority 0).resetErrors).setPriority
        ((((qO.incrementSuccess).resetErrors).setPriority 0).resetErrors).originalPriority).isPrimaryNode
        = true := by
      simp [BeaconNode.isPrimaryNode, BeaconNode.setPriority, BeaconNode.resetErrors,
        BeaconNode.incrementSuccess, horigO]
    constructor
    · unfold nodePriorityOf
      rw [rebuildHealthy_findNode h3mem h3prim, hf3]
      simp [BeaconNode.setPriority, BeaconNode.resetErrors, BeaconNode.incrementSuccess, horigO]
    · intro qC hqC h0
      have hnotin : qC.name ∉ arrival := primary_not_in_backup_refs hnd harr hqC h0
      have hfC1 : findNode L1 qC.name = some qC := by
        rw [hL1def, processResults_findNode_not_mem probe hnotin]
        exact findNode_of_mem_nodup hnd hqC
      have hCmem := (mem_of_findNode hfC1).1
      -- the found current primary is this very backend
      have hpcC : pc.name = qC.name := by
        obtain ⟨n, hn, hkey⟩ := mem_key_of_map_eq
          (processResults_map_key probe lb arrival) hpc_mem
        have hnn : n.name = pc.name := congrArg Prod.fst hkey
        have hnp : n.priority = pc.priority := congrArg (fun x => x.2.1) hkey
        have := huniq n hn qC hqC (by rw [hnp, hpc_pri]) h0
        rw [← this, hnn]
      have hnotinHB : qC.name ∉ HB := by
        rw [hHB]
        intro hin
        exact hnotin (List.mem_of_mem_filter hin)
      unfold nodePriorityOf
      rw [rebuildHealthy_findNode h3mem h3prim,
        restorePriorities_findNode_not_mem hnotinHB, ← hpcC,
        findNode_updateNode_self (by intro n; rfl),
        findNode_updateNode_ne (by intro n; rfl)
          (by rw [hpcC]; exact fun he => hnotin (he ▸ hinO)),
        hpcC, hfC1]
      rfl

/-- Witness for the C5 theorem at a concrete input: `p` (original primary,
demoted to priority 2) recovers while `b` serves as primary; after the pass
`p.priority = 0` and `b.priority = 1`. -/
theorem failback_restores_original_primary_witness :
    nodePriorityOf (performHealthCheck cfgTwo (fun _ => true) ["p"]
      ⟨[{ mkNode "p" 0 with priority := 2, consecutiveSuccesses := 2 },
        { mkNode "b" 1 with priority := 0 }], ["b"]⟩) "p" = 0 ∧
    nodePriorityOf (performHealthCheck cfgTwo (fun _ => true) ["p"]
      ⟨[{ mkNode "p" 0 with priority := 2, consecutiveSuccesses := 2 },
        { mkNode "b" 1 with priority := 0 }], ["b"]⟩) "b" = 1 := by
  have h := @failback_restores_original_primary cfgTwo (fun _ => true) ["p"]
    ⟨[{ mkNode "p" 0 with priority := 2, consecutiveSuccesses := 2 },
      { mkNode "b" 1 with priority := 0 }], ["b"]⟩
    (by decide) (by decide) (by decide)
    (by decide) (by decide)
    { mkNode "p" 0 with priority := 2, consecutiveSuccesses := 2 }
    (by decide) (by decide) (by decide) (by decide) (by decide) (by decide)
  refine ⟨h.1, ?_⟩
  have h2 := h.2 { mkNode "b" 1 with priority := 0 } (by decide) (by decide)
  simpa using h2

/-! ## C8: ordering of the healthy set -/

theorem mem_insertByPriority (lb : LoadBalancer) (name x : String) (l : List String) :
    x ∈ insertByPriority lb name l ↔ x = name ∨ x ∈ l := by
  induction l with
  | nil => simp [insertByPriority]
  | cons m rest ih =>
    by_cases h : nodePriorityOf lb name ≤ nodePriorityOf lb m
    · simp [insertByPriority, h]
    · simp [insertByPriority, h, ih]
      tauto

theorem pairwise_insertByPriority (lb : LoadBalancer) (name : String)
    {l : List String}
    (h : List.Pairwise (fun a b => nodePriorityOf lb a ≤ nodePriorityOf lb b) l) :
    List.Pairwise (fun a b => nodePriorityOf lb a ≤ nodePriorityOf lb b)
      (insertByPriority lb name l) := by
  induction l with
  | nil => simp [insertByPriority]
  | cons m rest ih =>
    rcases List.pairwise_cons.mp h with ⟨hm, hrest⟩
    by_cases hle : nodePriorityOf lb name ≤ nodePriorityOf lb m
    · simp only [insertByPriority, if_pos hle]
      refine List.pairwise_cons.mpr ⟨?_, h⟩
      intro x hx
      rcases List.mem_cons.mp hx with rfl | hx2
      · exact hle
      · exact le_trans hle (hm x hx2)
    · simp only [insertByPriority, if_neg hle]
      refine List.pairwise_cons.mpr ⟨?_, ih hrest⟩
      intro x hx
      rcases (mem_insertByPriority lb name x rest).mp hx with rfl | hx2
      · omega
      · exact hm x hx2

theorem pairwise_sortByPriority (lb : LoadBalancer) (l : List String) :
    List.Pairwise (fun a b => nodePriorityOf lb a ≤ nodePriorityOf lb b)
      (sortByPriority lb l) := by
  induction l with
  | nil => simp [sortByPriority]
  | cons m rest ih =>
    exact pairwise_insertByPriority lb m ih

theorem filter_map_name_filter (p : String → Bool) (P : BeaconNode → Bool)
    (l : List BeaconNode) :
    ((l.filter P).map (fun n => n.name)).filter p =
      (l.filter (fun n => P n && p n.name)).map (fun n => n.name) := by
  induction l with
  | nil => rfl
  | cons h t ih =>
    by_cases hP : P h = true
    · by_cases hp : p h.name = true
      · simp [List.filter_cons, hP, hp, ih]
      · simp [List.filter_cons, hP, hp, ih]
    · simp [List.filter_cons, hP, ih]

theorem findNode_keyNO_congr {lb lb' : LoadBalancer}
    (h : lb'.nodes.map keyNO = lb.nodes.map keyNO) (m : String) :
    (findNode lb' m).map keyNO = (findNode lb m).map keyNO :=
  find?_congr_of_map_eq h (fun n n' he => by
    have : n.name = n'.name := congrArg Prod.fst he
    simp [this])

theorem pairwise_orig_lt {lb : LoadBalancer} (horig : origIsRange lb) :
    lb.nodes.Pairwise (fun a b => a.originalPriority < b.originalPriority) := by
  unfold origIsRange at horig
  have h1 : List.Pairwise (fun a b : Int => a < b)
      (lb.nodes.map (fun n => n.originalPriority)) := by
    rw [horig]
    rw [List.pairwise_map]
    exact (List.pairwise_lt_range _).imp (fun hab => Int.ofNat_lt.mpr hab)
  rwa [List.pairwise_map] at h1

/-- Every proposed-backup reference resolves after restoration with
priority and original priority both equal to its original
priority. -/
theorem afterRestore_findNode_of_backup (cfg : Config) (probe : String → Bool)
    (arrival : List String) (lb : LoadBalancer) (hnd : namesNodup lb)
    {n : BeaconNode} (hn : n ∈ lb.nodes)
    (hmem : n.name ∈ (processResults probe lb arrival).2) :
    ∃ node, findNode (afterRestore cfg probe arrival lb) n.name = some node ∧
      node.priority = n.originalPriority ∧
      node.originalPriority = n.originalPriority := by
  have hkey : ((failbackStep cfg (processResults probe lb arrival).1
      (processResults probe lb arrival).2).nodes.map keyNO) = lb.nodes.map keyNO := by
    rw [failbackStep_map_keyNO,
      map_keyNO_of_map_key (processResults_map_key probe lb arrival)]
  have hcongr := findNode_keyNO_congr hkey n.name
  rw [findNode_of_mem_nodup hnd hn] at hcongr
  cases hf2 : findNode (failbackStep cfg (processResults probe lb arrival).1
      (processResults probe lb arrival).2) n.name with
  | none => rw [hf2] at hcongr; cases hcongr
  | some n2 =>
    rw [hf2] at hcongr
    have hkey2 : keyNO n2 = keyNO n := by simpa using hcongr
    have horig2 : n2.originalPriority = n.originalPriority := congrArg Prod.snd hkey2
    refine ⟨n2.setPriority n2.originalPriority, ?_, ?_, ?_⟩
    · unfold afterRestore
      rw [restorePriorities_findNode_mem hmem, hf2]
      rfl
    · simp [BeaconNode.setPriority, horig2]
    · simpa [BeaconNode.setPriority] using horig2

theorem orig_lt_length {l : List BeaconNode}
    (h : l.map (fun n => n.originalPriority) = (List.range l.length).map Int.ofNat)
    {q : BeaconNode} (hq : q ∈ l) : q.originalPriority < (l.length : Int) := by
  have : q.originalPriority ∈ l.map (fun n => n.originalPriority) :=
    List.mem_map_of_mem _ hq
  rw [h] at this
  rcases List.mem_map.mp this with ⟨k, hk, hke⟩
  rw [List.mem_range] at hk
  rw [← hke]
  exact Int.ofNat_lt.mpr hk

theorem promote_foldl_stays (lb : LoadBalancer) (l : List String)
    (acc : Int × Option String)
    (h : ∀ m ∈ l, ∀ node, findNode lb m = some node →
      ¬(node.priority < acc.1 ∧ 0 < node.priority)) :
    l.foldl (fun acc name =>
      match findNode lb name with
      | some node =>
        if node.priority < acc.1 ∧ 0 < node.priority then (node.priority, some name)
        else acc
      | none => acc) acc = acc := by
  induction l with
  | nil => rfl
  | cons m rest ih =>
    rw [List.foldl_cons]
    have step : (match findNode lb m with
        | some node =>
          if node.priority < acc.1 ∧ 0 < node.priority then (node.priority, some m)
          else acc
        | none => acc) = acc := by
      cases hf : findNode lb m with
      | none => rfl
      | some node =>
        simp only
        rw [if_neg (h m (List.mem_cons_self _ _) node hf)]
    rw [step]
    exact ih (fun m2 hm2 node hf => h m2 (List.mem_cons_of_mem _ hm2) node hf)

/-- When no healthy backup has `original_priority == 0` and the first
healthy backup already has the strictly smallest positive priority, the
promotion fold selects it. -/
theorem promoteTarget_cons_head (lb : LoadBalancer) (m0 : String) (ms : List String)
    (hop : findOriginalPrimary lb (m0 :: ms) = none)
    {n0 : BeaconNode} (hf0 : findNode lb m0 = some n0)
    (h0pos : 0 < n0.priority) (h0big : n0.priority < 9223372036854775807)
    (hms : ∀ m ∈ ms, ∀ node, findNode lb m = some node →
      ¬(node.priority < n0.priority)) :
    promoteTarget lb (m0 :: ms) = some m0 := by
  unfold promoteTarget
  rw [hop]
  rw [List.foldl_cons]
  have step : (match findNode lb m0 with
      | some node =>
        if node.priority < ((9223372036854775807 : Int), (none : Option String)).1 ∧
            0 < node.priority then (node.priority, some m0)
        else ((9223372036854775807 : Int), (none : Option String))
      | none => ((9223372036854775807 : Int), (none : Option String))) =
      (n0.priority, some m0) := by
    rw [hf0]
    simp only
    rw [if_pos ⟨h0big, h0pos⟩]
  rw [step, promote_foldl_stays]
  intro m hm node hf hcon
  exact hms m hm node hf hcon.1

/-- The backup nodes in configured order, as handed to the periodic
prober. -/
def configuredArrival (lb : LoadBalancer) : List String :=
  (lb.nodes.filter (fun n => n.isBackupNode)).map (fun n => n.name)

theorem performHealthCheck_sorted_configured (cfg : Config) (probe : String → Bool)
    (lb : LoadBalancer) (hnd : namesNodup lb) (horig : origIsRange lb)
    (hlen : (lb.nodes.length : Int) < 9223372036854775807)
    (hpre : List.Pairwise (fun a b => nodePriorityOf lb a ≤ nodePriorityOf lb b)
      lb.healthyNodes) :
    List.Pairwise (fun a b =>
      nodePriorityOf (performHealthCheck cfg probe (configuredArrival lb) lb) a ≤
      nodePriorityOf (performHealthCheck cfg probe (configuredArrival lb) lb) b)
      (performHealthCheck cfg probe (configuredArrival lb) lb).healthyNodes := by
  by_cases hemp : (lb.nodes.filter (fun n => n.isBackupNode)).isEmpty = true
  · simp only [performHealthCheck, hemp, if_true]
    exact hpre
  · simp only [performHealthCheck, hemp, Bool.false_eq_true, if_false]
    set HB := (processResults probe lb (configuredArrival lb)).2 with hHBdef
    set lb3 := restorePriorities
      (failbackStep cfg (processResults probe lb (configuredArrival lb)).1 HB) HB
      with hlb3def
    have hHBeq : HB =
        (lb.nodes.filter (fun n => n.isBackupNode && probe n.name)).map
          (fun n => n.name) := by
      rw [hHBdef, processResults_snd]
      simp only [configuredArrival]
      rw [filter_map_name_filter]
    have hndHB : HB.Nodup := by
      rw [hHBeq]
      exact List.Nodup.sublist (List.Sublist.map _ (List.filter_sublist _)) hnd
    have hpri3 : ∀ n ∈ lb.nodes.filter (fun n => n.isBackupNode && probe n.name),
        nodePriorityOf lb3 n.name = n.originalPriority ∧
        ∃ node, findNode lb3 n.name = some node ∧
          node.priority = n.originalPriority ∧
          node.originalPriority = n.originalPriority := by
      intro n hnf
      have hn : n ∈ lb.nodes := List.mem_of_mem_filter hnf
      have hmem : n.name ∈ (processResults probe lb (configuredArrival lb)).2 := by
        rw [← hHBdef, hHBeq]
        exact List.mem_map_of_mem _ hnf
      obtain ⟨node, hfn, hp, ho⟩ :=
        afterRestore_findNode_of_backup cfg probe (configuredArrival lb) lb hnd hn hmem
      have hfn3 : findNode lb3 n.name = some node := hfn
      refine ⟨?_, node, hfn3, hp, ho⟩
      unfold nodePriorityOf
      rw [hfn3]
      simp [hp]
    have hpw : (lb.nodes.filter (fun n => n.isBackupNode && probe n.name)).Pairwise
        (fun a b => a.originalPriority < b.originalPriority) :=
      (pairwise_orig_lt horig).sublist (List.filter_sublist _)
    have hE : List.Pairwise
        (fun a b => nodePriorityOf lb3 a ≤ nodePriorityOf lb3 b) HB := by
      rw [hHBeq, List.pairwise_map]
      refine List.Pairwise.imp_of_mem ?_ hpw
      intro a b ha hb hab
      rw [(hpri3 a ha).1, (hpri3 b hb).1]
      omega
    have hF : ∀ m ∈ HB, 0 ≤ nodePriorityOf lb3 m := by
      intro m hm
      rw [hHBeq] at hm
      rcases List.mem_map.mp hm with ⟨n, hnf, rfl⟩
      rw [(hpri3 n hnf).1]
      exact orig_nonneg horig (List.mem_of_mem_filter hnf)
    have hnd3 : namesNodup lb3 :=
      afterRestore_namesNodup cfg probe (configuredArrival lb) lb hnd
    cases hfp : lb3.nodes.find? (fun n => n.isPrimaryNode) with
    | some p =>
      simp only [rebuildHealthy, hfp]
      have hp0 : nodePriorityOf lb3 p.name = 0 := by
        unfold nodePriorityOf
        rw [findNode_of_mem_nodup hnd3 (List.mem_of_find?_eq_some hfp)]
        have := List.find?_some hfp
        simp only [BeaconNode.isPrimaryNode] at this
        simpa using this
      refine List.pairwise_append.mpr ⟨?_, ?_, ?_⟩
      · by_cases hc : lb3.healthyNodes.contains p.name = true
        · rw [if_pos hc]
          exact List.pairwise_singleton _ _
        · rw [if_neg hc]
          exact List.Pairwise.nil
      · exact hE
      · intro x hx y hy
        show nodePriorityOf lb3 x ≤ nodePriorityOf lb3 y
        have hxp : x = p.name := by
          by_cases hc : lb3.healthyNodes.contains p.name = true
          · rw [if_pos hc] at hx
            simpa using hx
          · rw [if_neg hc] at hx
            cases hx
        rw [hxp, hp0]
        exact hF y hy
    | none =>
      simp only [rebuildHealthy, hfp]
      have hnoprim : ∀ q ∈ lb3.nodes, ¬(q.isPrimaryNode = true) :=
        fun q hq => List.find?_eq_none.mp hfp q hq
      have hpos : ∀ n ∈ lb.nodes.filter (fun n => n.isBackupNode && probe n.name),
          0 < n.originalPriority := by
        intro n hnf
        obtain ⟨-, node, hfn, hp, ho⟩ := hpri3 n hnf
        have hnn : 0 ≤ n.originalPriority :=
          orig_nonneg horig (List.mem_of_mem_filter hnf)
        by_contra hcon
        have horig0 : n.originalPriority = 0 := by omega
        exact hnoprim node (mem_of_findNode hfn).1
          (by simp [BeaconNode.isPrimaryNode, hp, horig0])
      by_cases hempHB : HB.isEmpty = true
      · rw [if_pos hempHB]
        rw [List.isEmpty_iff.mp hempHB]
        exact List.Pairwise.nil
      · rw [if_neg hempHB]
        cases hfl : lb.nodes.filter (fun n => n.isBackupNode && probe n.name) with
        | nil =>
          exfalso
          rw [hHBeq, hfl] at hempHB
          exact hempHB rfl
        | cons n0 nrest =>
          have hHBc : HB = n0.name :: nrest.map (fun n => n.name) := by
            rw [hHBeq, hfl]
            rfl
          have hn0f : n0 ∈ lb.nodes.filter (fun n => n.isBackupNode && probe n.name) := by
            rw [hfl]
            exact List.mem_cons_self _ _
          obtain ⟨hpn0, node0, hfn0, hp0, ho0⟩ := hpri3 n0 hn0f
          have h0pos : 0 < node0.priority := by
            rw [hp0]
            exact hpos n0 hn0f
          have h0big : node0.priority < 9223372036854775807 := by
            rw [hp0]
            have := orig_lt_length horig (List.mem_of_mem_filter hn0f)
            omega
          have hop3 : findOriginalPrimary lb3 HB = none := by
            cases hfo : findOriginalPrimary lb3 HB with
            | none => rfl
            | some m =>
              exfalso
              have hmmem : m ∈ HB := List.mem_of_find?_eq_some hfo
              have hmp := List.find?_some hfo
              rw [hHBeq] at hmmem
              rcases List.mem_map.mp hmmem with ⟨n, hnf, rfl⟩
              obtain ⟨hpn, node, hfn, hp, ho⟩ := hpri3 n hnf
              rw [hfn] at hmp
              have : node.originalPriority = 0 := by simpa using hmp
              rw [ho] at this
              have := hpos n hnf
              omega
          have hms : ∀ m ∈ nrest.map (fun n => n.name), ∀ node,
              findNode lb3 m = some node → ¬(node.priority < node0.priority) := by
            intro m hm node hfm
            rcases List.mem_map.mp hm with ⟨n, hn, rfl⟩
            have hnf : n ∈ lb.nodes.filter (fun n => n.isBackupNode && probe n.name) := by
              rw [hfl]
              exact List.mem_cons_of_mem _ hn
            obtain ⟨hpn, node', hfn', hp', ho'⟩ := hpri3 n hnf
            have hnode : node = node' := by
              rw [hfm] at hfn'
              exact (Option.some_injective _ hfn'.symm).symm
            have hlt : n0.originalPriority < n.originalPriority :=
              (List.pairwise_cons.mp (hfl ▸ hpw)).1 n hn
            rw [hnode, hp', hp0]
            omega
          have hpt : promoteTarget lb3 HB = some n0.name := by
            rw [hHBc]
            exact promoteTarget_cons_head lb3 _ _ (hHBc ▸ hop3) hfn0 h0pos h0big hms
          simp only [hpt]
          show List.Pairwise (fun a b =>
            nodePriorityOf (updateNode lb3 n0.name
              (fun n => (n.setPriority 0).resetErrors)) a ≤
            nodePriorityOf (updateNode lb3 n0.name
              (fun n => (n.setPriority 0).resetErrors)) b) HB
          have hnn0 : n0.name ∉ nrest.map (fun n => n.name) := by
            rw [hHBc] at hndHB
            exact (List.nodup_cons.mp hndHB).1
          have hup0 : nodePriorityOf (updateNode lb3 n0.name
              (fun n => (n.setPriority 0).resetErrors)) n0.name = 0 := by
            unfold nodePriorityOf
            rw [findNode_updateNode_self (by intro n; rfl), hfn0]
            rfl
          have hupNe : ∀ m, m ≠ n0.name →
              nodePriorityOf (updateNode lb3 n0.name
                (fun n => (n.setPriority 0).resetErrors)) m = nodePriorityOf lb3 m := by
            intro m hm
            unfold nodePriorityOf
            rw [findNode_updateNode_ne (by intro n; rfl) hm]
          rw [hHBc]
          refine List.pairwise_cons.mpr ⟨?_, ?_⟩
          · intro m hm
            have hmne : m ≠ n0.name := fun he => hnn0 (he ▸ hm)
            rw [hup0, hupNe m hmne]
            rcases List.mem_map.mp hm with ⟨n, hnf2, rfl⟩
            have hnf : n ∈ lb.nodes.filter (fun n => n.isBackupNode && probe n.name) := by
              rw [hfl]
              exact List.mem_cons_of_mem _ hnf2
            rw [(hpri3 n hnf).1]
            exact orig_nonneg horig (List.mem_of_mem_filter hnf)
          · have hEms : List.Pairwise
                (fun a b => nodePriorityOf lb3 a ≤ nodePriorityOf lb3 b)
                (nrest.map (fun n => n.name)) := by
              rw [hHBc] at hE
              exact (List.pairwise_cons.mp hE).2
            refine List.Pairwise.imp_of_mem ?_ hEms
            intro a b ha hb hab
            have hane : a ≠ n0.name := fun he => hnn0 (he ▸ ha)
            have hbne : b ≠ n0.name := fun he => hnn0 (he ▸ hb)
            rw [hupNe a hane, hupNe b hbne]
            exact hab

/-- C8 amended: the startup health check populates the healthy set sorted
ascending by current priority; the periodic rebuild performs no sort and
emits the retained primary followed by the healthy backups in
probe-completion order, so the sorted order is preserved when the results
are collected in configured order (where restored priorities equal original
priorities) — an out-of-order completion can produce an unsorted healthy
set (see the counterexample). -/
theorem healthy_set_sorted_startup_and_ordered_rebuild :
    (∀ (lb lb' : LoadBalancer) (checkResult : String → Bool) (arrival : List String),
      startupHealthCheck lb checkResult arrival = Except.ok lb' →
      List.Pairwise (fun a b => nodePriorityOf lb' a ≤ nodePriorityOf lb' b)
        lb'.healthyNodes) ∧
    (∀ (cfg : Config) (probe : String → Bool) (lb : LoadBalancer),
      namesNodup lb → origIsRange lb →
      ((lb.nodes.length : Int) < 9223372036854775807) →
      List.Pairwise (fun a b => nodePriorityOf lb a ≤ nodePriorityOf lb b)
        lb.healthyNodes →
      List.Pairwise (fun a b =>
        nodePriorityOf (performHealthCheck cfg probe (configuredArrival lb) lb) a ≤
        nodePriorityOf (performHealthCheck cfg probe (configuredArrival lb) lb) b)
        (performHealthCheck cfg probe (configuredArrival lb) lb).healthyNodes) := by
  constructor
  · intro lb lb' c arrival hok
    simp only [startupHealthCheck] at hok
    by_cases hemp : (sortByPriority lb (arrival.filter c)).isEmpty = true
    · rw [if_pos hemp] at hok
      cases hok
    · rw [if_neg hemp] at hok
      cases hok
      exact pairwise_sortByPriority lb _
  · intro cfg probe lb hnd horig hlen hpre
    exact performHealthCheck_sorted_configured cfg probe lb hnd horig hlen hpre

/-- Witness for the amended C8 theorem at a concrete input. -/
theorem healthy_set_sorted_witness :
    List.Pairwise (fun a b =>
      nodePriorityOf (performHealthCheck cfgTwo (fun _ => true)
        (configuredArrival lbThree) lbThree) a ≤
      nodePriorityOf (performHealthCheck cfgTwo (fun _ => true)
        (configuredArrival lbThree) lbThree) b)
      (performHealthCheck cfgTwo (fun _ => true)
        (configuredArrival lbThree) lbThree).healthyNodes :=
  healthy_set_sorted_startup_and_ordered_rebuild.2 cfgTwo (fun _ => true) lbThree
    (by decide) (by decide) (by decide) (by decide)

end ConsensusProxy
